import Mathlib

/-!
Verification of the minarg argument-parsing library (src/include/minarg/minarg.hpp)
against its natural-language specification.

The embedding models tokens and strings as `List Char` and threads the parser
state explicitly.  Exceptions (`minarg::Error`, `minarg::Signal`) become an
`Except` whose error value carries the parser state at the throw point, which
mirrors the fact that C++ exceptions do not roll back in-place mutations.
-/

namespace Minarg

/-- Decidable equality for `Except`, used to evaluate the model on
concrete inputs with `decide`. -/
def exceptDecEq {ε α : Type} [DecidableEq ε] [DecidableEq α] :
    DecidableEq (Except ε α)
  | .error a, .error b =>
    if h : a = b then isTrue (by rw [h])
    else isFalse (by intro hh; cases hh; exact h rfl)
  | .error _, .ok _ => isFalse (by intro h; cases h)
  | .ok _, .error _ => isFalse (by intro h; cases h)
  | .ok a, .ok b =>
    if h : a = b then isTrue (by rw [h])
    else isFalse (by intro hh; cases hh; exact h rfl)

instance {ε α : Type} [DecidableEq ε] [DecidableEq α] :
    DecidableEq (Except ε α) := exceptDecEq

/-! ## Value codec: string to value (minarg.hpp lines 83-150) -/

/-- Decimal digit character for a value `0 ≤ d < 10`, as produced by the
C++ stream insertion of integers. -/
def digitChar (d : Nat) : Char := Char.ofNat (48 + d)

/-- Fuel-driven worker producing the decimal digits of `n`, least significant
first.  Any `fuel > n` is adequate. -/
def natDigitsGo : Nat → Nat → List Char
  | 0, _ => []
  | fuel + 1, n =>
    if n < 10 then [digitChar n]
    else digitChar (n % 10) :: natDigitsGo fuel (n / 10)

/-- Decimal digit string of a natural number, most significant digit first,
as produced by `operator<<` on an integer stream. -/
def natToDigits (n : Nat) : List Char := (natDigitsGo (n + 1) n).reverse

/-- Rendering of an integer exactly as `toStream` (minarg.hpp lines 155-166)
writes it: the value is upcast to `intmax_t`/`uintmax_t` and streamed in
decimal, with a leading `-` for negative values. -/
def intToStr (i : Int) : List Char :=
  if i < 0 then '-' :: natToDigits i.natAbs else natToDigits i.natAbs

/-- `toStream` for `std::string` (minarg.hpp lines 170-178) wraps the value
in double quotes. -/
def toStringStr (s : List Char) : List Char := '"' :: (s ++ ['"'])

/-- `fromString<std::string>` (minarg.hpp lines 144-150) is the identity. -/
def fromStringStr (s : List Char) : List Char := s

/-- Whitespace for the `"C"` locale `isspace`, which `strtoll` skips. -/
def isCSpace (c : Char) : Bool :=
  c = ' ' || c = '\t' || c = '\n' || c = Char.ofNat 11 || c = Char.ofNat 12 || c = '\r'

/-- Digit value of `c` under `base` (10 or 16), as accepted by `strtoll`. -/
def digitVal (base : Nat) (c : Char) : Option Nat :=
  let d :=
    if '0' ≤ c ∧ c ≤ '9' then some (c.toNat - 48)
    else if 'a' ≤ c ∧ c ≤ 'f' then some (c.toNat - 87)
    else if 'A' ≤ c ∧ c ≤ 'F' then some (c.toNat - 55)
    else none
  match d with
  | some d => if d < base then some d else none
  | none => none

/-- Is `c` a hexadecimal digit? -/
def isHexDigit (c : Char) : Bool := (digitVal 16 c).isSome

/-- Greedily read digits of `base`, folding them onto `acc`; returns the
accumulated value, the number of characters consumed and the remainder. -/
def readDigits (base : Nat) (acc : Nat) : List Char → Nat × Nat × List Char
  | [] => (acc, 0, [])
  | c :: rest =>
    match digitVal base c with
    | some d =>
      let (v, n, r) := readDigits base (acc * base + d) rest
      (v, n + 1, r)
    | none => (acc, 0, c :: rest)

/-- Model of `std::stoll`/`std::stoull` (`strtoll`) on `s` with the given
`base`: skip `"C"`-locale whitespace, an optional sign, an optional `0x`/`0X`
prefix when `base = 16` (only when followed by a hex digit), then digits.
Returns the signed value and the position of the first unconverted character,
or `none` when no conversion could be performed (`std::invalid_argument`).
The value is unbounded here; the caller's range check subsumes the
`std::out_of_range` behaviour for every modelled target width. -/
def strtolModel (s : List Char) (base : Nat) : Option (Int × Nat) :=
  let wsLen := (s.takeWhile isCSpace).length
  let s1 := s.drop wsLen
  let (sgn, sgnLen, s2) :=
    match s1 with
    | [] => ((1 : Int), 0, ([] : List Char))
    | c :: r =>
      if c = '-' then ((-1 : Int), 1, r)
      else if c = '+' then ((1 : Int), 1, r)
      else ((1 : Int), 0, c :: r)
  let (pfxLen, s3) :=
    if base = 16 then
      match s2 with
      | '0' :: x :: d :: r =>
        if (x = 'x' ∨ x = 'X') ∧ isHexDigit d then (2, d :: r) else (0, s2)
      | _ => (0, s2)
    else (0, s2)
  let (val, cnt, _) := readDigits base 0 s3
  if cnt = 0 then none
  else some (sgn * (val : Int), wsLen + sgnLen + pfxLen + cnt)

/-- `std::numeric_limits<T>::min()` for the modelled integer targets. -/
def intMin (signed : Bool) (bits : Nat) : Int :=
  if signed then -(2 ^ (bits - 1)) else 0

/-- `std::numeric_limits<T>::max()` for the modelled integer targets. -/
def intMax (signed : Bool) (bits : Nat) : Int :=
  if signed then 2 ^ (bits - 1) - 1 else 2 ^ bits - 1

/-- Error message helper: a literal prefix followed by the offending text. -/
def msg (pre : String) (rest : List Char) : List Char := pre.data ++ rest

/-- Base selected by `fromString` for integers (minarg.hpp line 115):
decimal unless the token contains `x` or `X` anywhere. -/
def intParseBase (s : List Char) : Nat :=
  if s.any (fun c => c = 'X' || c = 'x') then 16 else 10

/-- `fromString` for an integral target (minarg.hpp lines 85-125) of the
given signedness and bit width: choose the base, reject a `-` anywhere in the
token for unsigned targets (`toLongest`, lines 94-104), run `strtoll`, then
require the whole token to be consumed and the value to lie in the target's
range. -/
def fromStringInt (signed : Bool) (bits : Nat) (s : List Char) :
    Except (List Char) Int :=
  if !signed && s.any (fun c => c = '-') then
    .error (msg "Cannot parse unsigned integer: " s)
  else
    match strtolModel s (intParseBase s) with
    | none => .error (msg "Cannot parse integer: " s)
    | some (v, pos) =>
      if pos = s.length ∧ intMin signed bits ≤ v ∧ v ≤ intMax signed bits then
        .ok v
      else .error (msg "Cannot parse integer: " s)

/-! ## Polymorphic argument types (minarg.hpp lines 191-382) -/

/-- A value bound into caller storage. -/
inductive Val : Type where
  | vBool : Bool → Val
  | vInt : Int → Val
  | vStr : List Char → Val
deriving DecidableEq

/-- The two codec directions a `ValueArg<T>`/`SinkArg<T>` instantiation fixes
at declaration time: `fromString<T>` and `toString<T>`. -/
structure Codec : Type where
  fromStr : List Char → Except (List Char) Val
  toStr : Val → List Char

/-- Codec of an integral target type of the given signedness and width. -/
def intCodec (signed : Bool) (bits : Nat) : Codec where
  fromStr s := (fromStringInt signed bits s).map Val.vInt
  toStr v := match v with
    | .vInt i => intToStr i
    | _ => []

/-- Codec of a `std::string` target. -/
def strCodec : Codec where
  fromStr s := .ok (.vStr (fromStringStr s))
  toStr v := match v with
    | .vStr s => toStringStr s
    | _ => []

/-- Dynamic part of an argument: which concrete `Arg` subclass it is, with
its bound target storage (and, for `ValueArg`, the default captured from the
target at construction, minarg.hpp line 332). -/
inductive ArgKind : Type where
  | signal : ArgKind
  | boolKind : Bool → ArgKind
  | valueKind : Codec → Val → Val → ArgKind
  | sinkKind : Codec → List Val → ArgKind

/-- One declared argument: the `Arg` base-class fields (minarg.hpp
lines 193-259) plus the subclass data. -/
structure Arg : Type where
  shortName : Char
  longName : List Char
  valueName : List Char
  description : List Char
  isRequired : Bool
  hasValue : Bool
  isSink : Bool
  isDone : Bool
  kind : ArgKind

/-- The absent short name, `char` value `0`. -/
def noShort : Char := Char.ofNat 0

/-- `SignalArg` constructor (minarg.hpp lines 262-274). -/
def signalArg (shortName : Char) (longName description : List Char) : Arg :=
  ⟨shortName, longName, [], description, false, false, false, false, .signal⟩

/-- `BoolArg` constructor (minarg.hpp lines 285-300). -/
def boolArg (shortName : Char) (longName description : List Char)
    (isRequired : Bool) (target : Bool) : Arg :=
  ⟨shortName, longName, [], description, isRequired, false, false, false,
    .boolKind target⟩

/-- `ValueArg<T>` constructor (minarg.hpp lines 315-333): captures the
current target value as the printed default. -/
def valueArg (shortName : Char) (longName valueName description : List Char)
    (isRequired : Bool) (codec : Codec) (target : Val) : Arg :=
  ⟨shortName, longName, valueName, description, isRequired, true, false, false,
    .valueKind codec target target⟩

/-- `SinkArg<Container, T>` constructor (minarg.hpp lines 354-370). -/
def sinkArg (valueName description : List Char) (isRequired : Bool)
    (codec : Codec) (target : List Val) : Arg :=
  ⟨noShort, [], valueName, description, isRequired, true, true, false,
    .sinkKind codec target⟩

/-- `Arg::parse` / `doParse`: the base class ignores the text, `ValueArg`
overwrites its target, `SinkArg` appends (minarg.hpp lines 210-213, 244,
337-340, 374-377).  A codec failure is a thrown `minarg::Error`. -/
def Arg.parse (a : Arg) (s : List Char) : Except (List Char) Arg :=
  match a.kind with
  | .signal => .ok a
  | .boolKind t => .ok { a with kind := .boolKind t }
  | .valueKind codec _ dflt =>
    match codec.fromStr s with
    | .error m => .error m
    | .ok v => .ok { a with kind := .valueKind codec v dflt }
  | .sinkKind codec t =>
    match codec.fromStr s with
    | .error m => .error m
    | .ok v => .ok { a with kind := .sinkKind codec (t ++ [v]) }

/-- The exception raised out of a parse: `minarg::Error` with its message, or
`minarg::Signal` with the argument's short and long name. -/
inductive ParseExc : Type where
  | err : List Char → ParseExc
  | sig : Char → List Char → ParseExc
deriving DecidableEq

/-- `Arg::done` / `doDone` (minarg.hpp lines 215-219, 245, 278-281,
304-307): `SignalArg` throws before `isDone_` is ever set; `BoolArg` sets
its target to `true`; then `isDone_` becomes true. -/
def Arg.done (a : Arg) : Except ParseExc Arg :=
  match a.kind with
  | .signal => .error (.sig a.shortName a.longName)
  | .boolKind _ => .ok { a with kind := .boolKind true, isDone := true }
  | _ => .ok { a with isDone := true }

/-- `Arg::doGetDefaultValue` (minarg.hpp lines 246, 342-345): only
`ValueArg` renders its captured default. -/
def Arg.doGetDefaultValue (a : Arg) : List Char :=
  match a.kind with
  | .valueKind codec _ dflt => codec.toStr dflt
  | _ => []

/-- `Arg::getDefaultValue` (minarg.hpp lines 221-224). -/
def Arg.getDefaultValue (a : Arg) : List Char :=
  if a.isRequired then [] else a.doGetDefaultValue

/-! ## Parser state (minarg.hpp lines 387-532) -/

/-- The `Parser` object: configuration, sticky terminated state, and the two
argument registries.  Defaults as in minarg.hpp lines 511-528. -/
structure Parser : Type where
  shortPrefix : Char := '-'
  longPrefix : List Char := ['-', '-']
  longSeparator : Char := '='
  terminator : List Char := ['-', '-']
  isTerminated : Bool := false
  helpProlog : List Char := []
  helpEpilog : List Char := []
  usageTitle : List Char := "USAGE".data
  optionsTitle : List Char := "OPTIONS".data
  operandsTitle : List Char := "OPERANDS".data
  utilityName : List Char := []
  optionsUsage : List Char := []
  operandsUsage : List Char := []
  defaultIntro : List Char := "default: ".data
  helpWidth : Nat := 80
  helpIndent : Nat := 2
  options : List Arg := []
  operands : List Arg := []

/-- A failed parse: the parser state at the throw point (C++ exceptions leave
all in-place mutations intact) together with the exception. -/
abbrev PFail : Type := Parser × ParseExc

/-- `Parser::parseUtility` (minarg.hpp lines 548-556). -/
def parseUtility (p : Parser) (toks : List (List Char)) :
    Parser × List (List Char) :=
  match toks with
  | [] => (p, [])
  | t :: rest =>
    (if p.utilityName = [] then { p with utilityName := t } else p, rest)

/-- `Parser::parseTerminator` (minarg.hpp lines 580-587). -/
def parseTerminator (p : Parser) (toks : List (List Char)) :
    Parser × List (List Char) :=
  match toks with
  | [] => (p, [])
  | tok :: rest =>
    if p.isTerminated || p.terminator = [] || tok ≠ p.terminator then
      (p, tok :: rest)
    else ({ p with isTerminated := true }, rest)

/-- `Parser::predictLongOption` (minarg.hpp lines 589-596). -/
def predictLongOption (p : Parser) (toks : List (List Char)) : Bool :=
  match toks with
  | [] => false
  | tok :: _ =>
    !p.isTerminated && !(p.longPrefix = []) &&
      decide (p.longPrefix.length < tok.length) && p.longPrefix.isPrefixOf tok

/-- `Parser::predictShortOption` (minarg.hpp lines 625-631). -/
def predictShortOption (p : Parser) (toks : List (List Char)) : Bool :=
  match toks with
  | [] => false
  | tok :: _ =>
    !p.isTerminated && decide (1 < tok.length) &&
      match tok with
      | [] => false
      | c :: _ => c = p.shortPrefix

/-- Split the part of a long-option token after the prefix at the first
occurrence of the separator, as `std::find` does in `parseLongOption`
(minarg.hpp line 605): returns the name part and, when a separator was
found, the text after it. -/
def splitAtSep (sep : Char) : List Char → List Char × Option (List Char)
  | [] => ([], none)
  | c :: rest =>
    if c = sep then ([], some rest)
    else
      let (n, v) := splitAtSep sep rest
      (c :: n, v)

/-- `Parser::getOption(const std::string&)` (minarg.hpp lines 708-715):
first option whose long name equals `name`, with its index. -/
def findOptionLong (opts : List Arg) (name : List Char) :
    Option (Nat × Arg) :=
  match opts with
  | [] => none
  | o :: rest =>
    if o.longName = name then some (0, o)
    else
      match findOptionLong rest name with
      | some (i, a) => some (i + 1, a)
      | none => none

/-- `Parser::getOption(char)` (minarg.hpp lines 717-724). -/
def findOptionShort (opts : List Arg) (name : Char) :
    Option (Nat × Arg) :=
  match opts with
  | [] => none
  | o :: rest =>
    if o.shortName = name then some (0, o)
    else
      match findOptionShort rest name with
      | some (i, a) => some (i + 1, a)
      | none => none

/-- Long-name lookup including the empty-name and unknown-name throws. -/
def getOptionLong (p : Parser) (name : List Char) :
    Except PFail (Nat × Arg) :=
  if name = [] then .error (p, .err (msg "Unknown option name: " name))
  else
    match findOptionLong p.options name with
    | some ia => .ok ia
    | none => .error (p, .err (msg "Unknown option name: " name))

/-- Short-name lookup including the nul-name and unknown-name throws. -/
def getOptionShort (p : Parser) (name : Char) :
    Except PFail (Nat × Arg) :=
  if name = noShort then .error (p, .err (msg "Unknown option name: " [name]))
  else
    match findOptionShort p.options name with
    | some ia => .ok ia
    | none => .error (p, .err (msg "Unknown option name: " [name]))

/-- `Parser::parseLongOption` (minarg.hpp lines 598-623). -/
def parseLongOption (p : Parser) (toks : List (List Char)) :
    Except PFail (Parser × List (List Char)) :=
  if predictLongOption p toks then
    match toks with
    | [] => .ok (p, [])
    | token :: rest =>
      let tail := token.drop p.longPrefix.length
      let (name, sepVal) := splitAtSep p.longSeparator tail
      match getOptionLong p name with
      | .error e => .error e
      | .ok (i, option) =>
        if option.hasValue then
          match sepVal with
          | some value =>
            match option.parse value with
            | .error m => .error (p, .err m)
            | .ok o₁ =>
              match o₁.done with
              | .error e => .error (p, e)
              | .ok o₂ => .ok ({ p with options := p.options.set i o₂ }, rest)
          | none =>
            match rest with
            | [] => .error (p, .err (msg "Cannot find value for option: " token))
            | v :: rest' =>
              match option.parse v with
              | .error m => .error (p, .err m)
              | .ok o₁ =>
                match o₁.done with
                | .error e => .error (p, e)
                | .ok o₂ =>
                  .ok ({ p with options := p.options.set i o₂ }, rest')
        else
          match sepVal with
          | some _ => .error (p, .err (msg "Unexpected option value: " token))
          | none =>
            match option.done with
            | .error e => .error (p, e)
            | .ok o₂ => .ok ({ p with options := p.options.set i o₂ }, rest)
  else .ok (p, toks)

/-- The cluster walk of `Parser::parseShortOptions` (minarg.hpp
lines 641-659), one character of the token at a time. -/
def parseShortCluster (p : Parser) (chars : List Char)
    (rest : List (List Char)) (token : List Char) :
    Except PFail (Parser × List (List Char)) :=
  match chars with
  | [] => .ok (p, rest)
  | c :: cs =>
    match getOptionShort p c with
    | .error e => .error e
    | .ok (i, option) =>
      if option.hasValue then
        match cs with
        | _ :: _ =>
          match option.parse cs with
          | .error m => .error (p, .err m)
          | .ok o₁ =>
            match o₁.done with
            | .error e => .error (p, e)
            | .ok o₂ => .ok ({ p with options := p.options.set i o₂ }, rest)
        | [] =>
          match rest with
          | [] => .error (p, .err (msg "Cannot find value for option: " token))
          | v :: rest' =>
            match option.parse v with
            | .error m => .error (p, .err m)
            | .ok o₁ =>
              match o₁.done with
              | .error e => .error (p, e)
              | .ok o₂ =>
                .ok ({ p with options := p.options.set i o₂ }, rest')
      else
        match option.done with
        | .error e => .error (p, e)
        | .ok o₂ =>
          parseShortCluster { p with options := p.options.set i o₂ } cs rest
            token

/-- `Parser::parseShortOptions` (minarg.hpp lines 633-660). -/
def parseShortOptions (p : Parser) (toks : List (List Char)) :
    Except PFail (Parser × List (List Char)) :=
  if predictShortOption p toks then
    match toks with
    | [] => .ok (p, [])
    | token :: rest => parseShortCluster p (token.drop 1) rest token
  else .ok (p, toks)

/-- The options loop of `Parser::parseOptions` (minarg.hpp lines 558-578),
fuel-driven; every iteration that continues has consumed at least one token,
so any `fuel > toks.length` is adequate. -/
def parseOptionsGo : Nat → Parser → List (List Char) →
    Except PFail (Parser × List (List Char))
  | 0, p, toks => .ok (p, toks)
  | fuel + 1, p, toks =>
    let (p1, t1) := parseTerminator p toks
    if t1.length < toks.length then .ok (p1, t1)
    else
      match parseLongOption p1 t1 with
      | .error e => .error e
      | .ok (p2, t2) =>
        if t2.length < toks.length then parseOptionsGo fuel p2 t2
        else
          match parseShortOptions p2 t2 with
          | .error e => .error e
          | .ok (p3, t3) =>
            if t3.length < toks.length then parseOptionsGo fuel p3 t3
            else .ok (p3, t3)

/-- `Parser::parseOptions` (minarg.hpp lines 558-578). -/
def parseOptions (p : Parser) (toks : List (List Char)) :
    Except PFail (Parser × List (List Char)) :=
  parseOptionsGo (toks.length + 1) p toks

/-- The operand loop of `Parser::parseOperandContent` (minarg.hpp
lines 668-684) for the operand at index `i`, fuel-driven; every iteration
that continues has consumed at least one token. -/
def parseOperandContentGo : Nat → Parser → List (List Char) → Nat →
    Except PFail (Parser × List (List Char))
  | 0, p, toks, _ => .ok (p, toks)
  | fuel + 1, p, toks, i =>
    let (p1, t1) := parseTerminator p toks
    match t1 with
    | [] => .ok (p1, [])
    | tok :: rest =>
      if predictLongOption p1 (tok :: rest) || predictShortOption p1 (tok :: rest) then
        .error (p1, .err (msg "Unexpected option: " tok))
      else
        match p1.operands.get? i with
        | none => .ok (p1, tok :: rest)
        | some operand =>
          match operand.parse tok with
          | .error m => .error (p1, .err m)
          | .ok o₁ =>
            match o₁.done with
            | .error e => .error (p1, e)
            | .ok o₂ =>
              let p2 := { p1 with operands := p1.operands.set i o₂ }
              if o₂.isSink then parseOperandContentGo fuel p2 rest i
              else .ok (p2, rest)

/-- `Parser::parseOperandContent` (minarg.hpp lines 668-684). -/
def parseOperandContent (p : Parser) (toks : List (List Char)) (i : Nat) :
    Except PFail (Parser × List (List Char)) :=
  parseOperandContentGo (toks.length + 1) p toks i

/-- `Parser::parseOperands` (minarg.hpp lines 662-666): each declared
operand in order, starting at index `i`, for `n` remaining operands. -/
def parseOperandsGo : Nat → Parser → List (List Char) → Nat →
    Except PFail (Parser × List (List Char))
  | 0, p, toks, _ => .ok (p, toks)
  | n + 1, p, toks, i =>
    match parseOperandContent p toks i with
    | .error e => .error e
    | .ok (p', toks') => parseOperandsGo n p' toks' (i + 1)

/-- `Parser::parseOperands` (minarg.hpp lines 662-666). -/
def parseOperands (p : Parser) (toks : List (List Char)) :
    Except PFail (Parser × List (List Char)) :=
  parseOperandsGo p.operands.length p toks 0

/-- `Parser::checkEnd` (minarg.hpp lines 686-690). -/
def checkEnd (p : Parser) (toks : List (List Char)) : Except PFail Unit :=
  match toks with
  | [] => .ok ()
  | t :: _ => .error (p, .err (msg "Unexpected argument: " t))

/-- `Parser::expandName` (minarg.hpp lines 699-706). -/
def expandName (p : Parser) (a : Arg) : List Char :=
  if a.shortName ≠ noShort then [p.shortPrefix, a.shortName]
  else if a.longName ≠ [] then p.longPrefix ++ a.longName
  else a.valueName

/-- `Parser::checkRequired` (minarg.hpp lines 692-697). -/
def checkRequired (p : Parser) : List Arg → Except PFail Unit
  | [] => .ok ()
  | a :: rest =>
    if a.isRequired && !a.isDone then
      .error (p, .err (msg "Cannot find required argument: " (expandName p a)))
    else checkRequired p rest

/-- `Parser::parseAll` (minarg.hpp lines 536-546). -/
def parseAll (p : Parser) (toks : List (List Char)) : Except PFail Parser :=
  let (p1, t1) := parseUtility p toks
  match parseOptions p1 t1 with
  | .error e => .error e
  | .ok (p2, t2) =>
    match parseOperands p2 t2 with
    | .error e => .error e
    | .ok (p3, t3) =>
      let (p4, t4) := parseTerminator p3 t3
      match checkEnd p4 t4 with
      | .error e => .error e
      | .ok _ =>
        match checkRequired p4 p4.options with
        | .error e => .error e
        | .ok _ =>
          match checkRequired p4 p4.operands with
          | .error e => .error e
          | .ok _ => .ok p4

/-! ## Observation helpers for bound targets -/

/-- The bound target of a `ValueArg`. -/
def Arg.targetVal (a : Arg) : Option Val :=
  match a.kind with
  | .valueKind _ t _ => some t
  | _ => none

/-- The bound target of a `SinkArg`. -/
def Arg.sinkVal (a : Arg) : Option (List Val) :=
  match a.kind with
  | .sinkKind _ t => some t
  | _ => none

/-- The bound target of a `BoolArg`. -/
def Arg.boolVal (a : Arg) : Option Bool :=
  match a.kind with
  | .boolKind t => some t
  | _ => none

/-- The caller-visible value of option `i` after a parse attempt; on failure
the state at the throw point is observed, since the C++ targets are mutated
in place. -/
def optionTarget (r : Except PFail Parser) (i : Nat) : Option Val :=
  match r with
  | .ok p => (p.options.get? i).bind Arg.targetVal
  | .error (p, _) => (p.options.get? i).bind Arg.targetVal

/-- The caller-visible value of operand `i` after a parse attempt. -/
def operandTarget (r : Except PFail Parser) (i : Nat) : Option Val :=
  match r with
  | .ok p => (p.operands.get? i).bind Arg.targetVal
  | .error (p, _) => (p.operands.get? i).bind Arg.targetVal

/-- The caller-visible contents of sink operand `i` after a parse attempt. -/
def operandSink (r : Except PFail Parser) (i : Nat) : Option (List Val) :=
  match r with
  | .ok p => (p.operands.get? i).bind Arg.sinkVal
  | .error (p, _) => (p.operands.get? i).bind Arg.sinkVal

/-- The caller-visible value of boolean option `i` after a parse attempt. -/
def optionBool (r : Except PFail Parser) (i : Nat) : Option Bool :=
  match r with
  | .ok p => (p.options.get? i).bind Arg.boolVal
  | .error (p, _) => (p.options.get? i).bind Arg.boolVal

/-- The exception of a failed parse attempt, if any. -/
def resultExc (r : Except PFail Parser) : Option ParseExc :=
  match r with
  | .ok _ => none
  | .error (_, e) => some e
/-- `Parser::parseAll` with the `checkEnd` stage removed.  Used solely to
state that the end check's error branch is unreachable for parsers whose
last operand is a sink: for those parsers `parseAll` coincides with this
variant. -/
def parseAllNoEndCheck (p : Parser) (toks : List (List Char)) :
    Except PFail Parser :=
  let (p1, t1) := parseUtility p toks
  match parseOptions p1 t1 with
  | .error e => .error e
  | .ok (p2, t2) =>
    match parseOperands p2 t2 with
    | .error e => .error e
    | .ok (p3, t3) =>
      let (p4, _) := parseTerminator p3 t3
      match checkRequired p4 p4.options with
      | .error e => .error e
      | .ok _ =>
        match checkRequired p4 p4.operands with
        | .error e => .error e
        | .ok _ => .ok p4

/-! ## Help renderer (minarg.hpp lines 726-950) -/

/-- Worker for `Parser::tokenize` (minarg.hpp lines 893-920): `cur` holds
the characters of the word in progress, in reverse. -/
def tokenizeGo : List Char → List Char → List (List Char)
  | [], cur => if cur = [] then [] else [cur.reverse]
  | c :: rest, cur =>
    if c = ' ' then
      (if cur = [] then [] else [cur.reverse]) ++ tokenizeGo rest []
    else if c = '\n' then
      (if cur = [] then [] else [cur.reverse]) ++ ['\n'] :: tokenizeGo rest []
    else tokenizeGo rest (c :: cur)

/-- `Parser::tokenize`: split text into space-separated words, every newline
character becoming its own token. -/
def tokenize (text : List Char) : List (List Char) := tokenizeGo text []

/-- A run of space characters. -/
def spacesStr (n : Nat) : List Char := List.replicate n ' '

/-- State of the `writeWrapped` loop (minarg.hpp lines 922-950): current
column, pending separating spaces, and the output written so far. -/
structure WrapSt : Type where
  pos : Nat
  spaces : Nat
  out : List Char
deriving DecidableEq

/-- One iteration of the `writeWrapped` token loop (minarg.hpp
lines 931-949). -/
def wrapToken (width hang : Nat) (st : WrapSt) (token : List Char) : WrapSt :=
  let isNewline := token = ['\n']
  let isOverflow := width < st.pos + st.spaces + token.length
  if isNewline ∨ (isOverflow ∧ hang < st.pos) then
    let st1 : WrapSt := ⟨0, hang, st.out ++ ['\n']⟩
    if isNewline then st1
    else
      ⟨st1.pos + st1.spaces + token.length, 1,
        st1.out ++ spacesStr st1.spaces ++ token⟩
  else
    ⟨st.pos + st.spaces + token.length, 1,
      st.out ++ spacesStr st.spaces ++ token⟩

/-- `Parser::writeWrapped` (minarg.hpp lines 922-950). -/
def writeWrapped (width : Nat) (tokens : List (List Char))
    (initialPos hang : Nat) : List Char :=
  (tokens.foldl (wrapToken width hang) ⟨initialPos, 0, []⟩).out

/-- `Parser::hasAnyShortName` (minarg.hpp lines 885-891). -/
def hasAnyShortName (args : List Arg) : Bool :=
  args.any fun a => decide (a.shortName ≠ noShort)

/-- The term column of one glossary entry (minarg.hpp lines 829-855). -/
def glossaryTerm (p : Parser) (hasAnyShort : Bool) (a : Arg) : List Char :=
  let t0 : List Char :=
    if hasAnyShort then
      if a.shortName = noShort then [' ', ' ']
      else [p.shortPrefix, a.shortName]
    else []
  let t1 : List Char :=
    if a.longName ≠ [] then
      t0 ++
        (if hasAnyShort then
          if a.shortName ≠ noShort then [',', ' '] else [' ', ' ']
        else []) ++
        p.longPrefix ++ a.longName
    else t0
  if a.hasValue then
    (if t1 ≠ [] then t1 ++ [' '] else t1) ++ a.valueName
  else t1

/-- The description tokens of one glossary entry (minarg.hpp lines 829,
857-862): the tokenized description, with the parenthesized default-value
token appended when the default-value intro is configured non-empty and the
rendered default is non-empty. -/
def glossaryDescription (p : Parser) (a : Arg) : List (List Char) :=
  let d := tokenize a.description
  if p.defaultIntro ≠ [] then
    let value := a.getDefaultValue
    if value ≠ [] then d ++ [('(' :: p.defaultIntro) ++ value ++ [')']]
    else d
  else d

/-- One glossary entry (minarg.hpp struct `Entry`, lines 817-821). -/
structure GEntry : Type where
  term : List Char
  description : List (List Char)

/-- Entry construction in the `writeGlossary` loop (minarg.hpp
lines 827-868). -/
def glossaryEntry (p : Parser) (hasAnyShort : Bool) (a : Arg) : GEntry :=
  ⟨glossaryTerm p hasAnyShort a, glossaryDescription p a⟩

/-- `Parser::writeGlossary` (minarg.hpp lines 809-883). -/
def writeGlossary (p : Parser) (title : List Char) (args : List Arg) :
    List Char :=
  if title.isEmpty || args.isEmpty then []
  else
    let hasAnyShort := hasAnyShortName args
    let entries := args.map (glossaryEntry p hasAnyShort)
    let maxTermSize := entries.foldl
      (fun m e => if m < e.term.length then e.term.length else m) 0
    let tab := p.helpIndent + maxTermSize + p.helpIndent
    title ++ '\n' ::
      ((entries.foldl (fun out e =>
        out ++ spacesStr p.helpIndent ++ e.term ++
          spacesStr (tab - p.helpIndent - e.term.length) ++
          writeWrapped p.helpWidth e.description tab tab ++ ['\n']) []) ++
        ['\n'])

/-! ## Scenario parsers used by the claim witnesses -/

/-- Scenario parser for C6: one value option `-i` of signed 32-bit type with
initial target value 1. -/
def c6Parser : Parser :=
  { options := [valueArg 'i' [] [] [] false (intCodec true 32) (.vInt 1)] }

/-- Scenario parser for the C7 counterexample: one optional `-i` option of
signed 32-bit type whose target initially holds 5, so 5 is the captured
default. -/
def c7Parser : Parser :=
  { options :=
      [valueArg 'i' [] [] "desc".data false (intCodec true 32) (.vInt 5)] }

/-- The parser state after successfully parsing `-i 7`. -/
def c7Parsed : Parser :=
  match parseAll c7Parser ["p".data, "-i".data, "7".data] with
  | .ok p => p
  | .error (p, _) => p

/-- Helper parser for the C4 witness: a `--help` signal next to a required
boolean option that is never satisfied. -/
def c4Parser : Parser :=
  { options := [signalArg 'h' ['h', 'e', 'l', 'p'] [],
      boolArg 'b' [] [] true false] }

/-- Scenario parser for the C2 counterexample: option `-n`/`--name` of
string type with initial target "d". -/
def c2Parser : Parser :=
  { options := [valueArg 'n' ['n', 'a', 'm', 'e'] [] [] false strCodec
      (.vStr ['d'])] }

/-- Helper parser for the C3 witness: one string-sink operand, already
terminated, so every remaining token is bound. -/
def c3TermParser : Parser :=
  { isTerminated := true,
    operands := [sinkArg [] [] false strCodec []] }

/-- Helper parser for the C3 witness: one string operand, not terminated. -/
def c3OpParser : Parser :=
  { operands := [valueArg noShort [] [] [] false strCodec (.vStr ['d'])] }

/-- Helper parser for the C10 witness: a value operand followed by a sink
operand in last position. -/
def c10Parser : Parser :=
  { operands := [valueArg noShort [] [] [] false strCodec (.vStr []),
      sinkArg [] [] false strCodec []] }

/-! ## Codec lemmas -/

/-! ## Round-trip lemmas for the integer codec -/

lemma digitVal10_digitChar {d : Nat} (h : d < 10) :
    digitVal 10 (digitChar d) = some d := by
  interval_cases d <;> decide

lemma isCSpace_digitChar {d : Nat} (h : d < 10) :
    isCSpace (digitChar d) = false := by
  interval_cases d <;> decide

lemma digitChar_ne_dash {d : Nat} (h : d < 10) : digitChar d ≠ '-' := by
  interval_cases d <;> decide

lemma digitChar_ne_plus {d : Nat} (h : d < 10) : digitChar d ≠ '+' := by
  interval_cases d <;> decide

lemma digitChar_ne_x {d : Nat} (h : d < 10) :
    ((digitChar d = 'X' || digitChar d = 'x') : Bool) = false := by
  interval_cases d <;> decide

lemma natDigitsGo_spec :
    ∀ fuel n, n < fuel →
      natDigitsGo fuel n ≠ [] ∧
        ∀ c ∈ natDigitsGo fuel n, ∃ d, d < 10 ∧ c = digitChar d := by
  intro fuel
  induction fuel with
  | zero => intro n h; omega
  | succ fuel ih =>
    intro n h
    by_cases hn : n < 10
    · simp only [natDigitsGo, if_pos hn]
      refine ⟨by simp, ?_⟩
      intro c hc
      simp only [List.mem_singleton] at hc
      exact ⟨n, hn, hc⟩
    · simp only [natDigitsGo, if_neg hn]
      have hlt : n / 10 < fuel := by omega
      obtain ⟨hne, hall⟩ := ih (n / 10) hlt
      refine ⟨by simp, ?_⟩
      intro c hc
      rcases List.mem_cons.mp hc with hc | hc
      · exact ⟨n % 10, Nat.mod_lt _ (by omega), hc⟩
      · exact hall c hc

lemma natDigitsGo_foldr :
    ∀ fuel n acc, n < fuel →
      (natDigitsGo fuel n).foldr
          (fun c a => a * 10 + ((digitVal 10 c).getD 0)) acc
        = acc * 10 ^ (natDigitsGo fuel n).length + n := by
  intro fuel
  induction fuel with
  | zero => intro n acc h; omega
  | succ fuel ih =>
    intro n acc h
    by_cases hn : n < 10
    · simp only [natDigitsGo, if_pos hn, List.foldr_cons, List.foldr_nil,
        List.length_singleton, pow_one]
      rw [digitVal10_digitChar hn]
      rfl
    · have hlt : n / 10 < fuel := by omega
      simp only [natDigitsGo, if_neg hn, List.foldr_cons, List.length_cons]
      rw [ih (n / 10) acc hlt]
      rw [digitVal10_digitChar (Nat.mod_lt _ (by omega))]
      simp only [Option.getD_some]
      rw [pow_succ]
      have : acc * (10 ^ (natDigitsGo fuel (n / 10)).length * 10)
          = acc * 10 ^ (natDigitsGo fuel (n / 10)).length * 10 := by ring
      rw [this]
      omega

lemma natToDigits_ne_nil (n : Nat) : natToDigits n ≠ [] := by
  have h := (natDigitsGo_spec (n + 1) n (by omega)).1
  simp only [natToDigits, ne_eq, List.reverse_eq_nil_iff]
  exact h

lemma natToDigits_digits {n : Nat} {c : Char} (hc : c ∈ natToDigits n) :
    ∃ d, d < 10 ∧ c = digitChar d := by
  have h := (natDigitsGo_spec (n + 1) n (by omega)).2
  simp only [natToDigits, List.mem_reverse] at hc
  exact h c hc

lemma natToDigits_foldl (n acc : Nat) :
    (natToDigits n).foldl (fun a c => a * 10 + ((digitVal 10 c).getD 0)) acc
      = acc * 10 ^ (natToDigits n).length + n := by
  simp only [natToDigits, List.foldl_reverse, List.length_reverse]
  exact natDigitsGo_foldr (n + 1) n acc (by omega)

lemma readDigits_all {base : Nat} (acc : Nat) (L : List Char)
    (h : ∀ c ∈ L, (digitVal base c).isSome) :
    readDigits base acc L =
      (L.foldl (fun a c => a * base + ((digitVal base c).getD 0)) acc,
        L.length, []) := by
  induction L generalizing acc with
  | nil => rfl
  | cons c rest ih =>
    have hc : (digitVal base c).isSome := h c (List.mem_cons_self c rest)
    obtain ⟨d, hd⟩ := Option.isSome_iff_exists.mp hc
    simp only [readDigits, hd, List.foldl_cons, List.length_cons]
    rw [ih (acc * base + d) (fun c hc => h c (List.mem_cons_of_mem _ hc))]
    simp [hd]

lemma natToDigits_readDigits (n : Nat) :
    readDigits 10 0 (natToDigits n) = (n, (natToDigits n).length, []) := by
  rw [readDigits_all 0 (natToDigits n) ?_]
  · rw [natToDigits_foldl]
    simp
  · intro c hc
    obtain ⟨d, hd, rfl⟩ := natToDigits_digits hc
    rw [digitVal10_digitChar hd]
    rfl

lemma intParseBase_natToDigits (n : Nat) :
    intParseBase (natToDigits n) = 10 := by
  simp only [intParseBase, ite_eq_right_iff]
  intro hany
  rw [List.any_eq_true] at hany
  obtain ⟨c, hc, hx⟩ := hany
  obtain ⟨d, hd, rfl⟩ := natToDigits_digits hc
  rw [digitChar_ne_x hd] at hx
  cases hx

lemma natToDigits_no_dash (n : Nat) :
    ((natToDigits n).any fun c => c = '-') = false := by
  rw [Bool.eq_false_iff]
  intro hany
  rw [List.any_eq_true] at hany
  obtain ⟨c, hc, hx⟩ := hany
  obtain ⟨d, hd, rfl⟩ := natToDigits_digits hc
  exact digitChar_ne_dash hd (by simpa using hx)

lemma strtolModel_natToDigits (n : Nat) :
    strtolModel (natToDigits n) 10 = some ((n : Int), (natToDigits n).length) := by
  obtain ⟨c, rest, hcons⟩ := List.exists_cons_of_ne_nil (natToDigits_ne_nil n)
  have hmem : c ∈ natToDigits n := by rw [hcons]; exact List.mem_cons_self _ _
  obtain ⟨d, hd, hcd⟩ := natToDigits_digits hmem
  have hspace : isCSpace c = false := by rw [hcd]; exact isCSpace_digitChar hd
  have hdash : c ≠ '-' := by rw [hcd]; exact digitChar_ne_dash hd
  have hplus : c ≠ '+' := by rw [hcd]; exact digitChar_ne_plus hd
  have hread : readDigits 10 0 (c :: rest) = (n, (c :: rest).length, []) := by
    rw [← hcons]; exact natToDigits_readDigits n
  have hlen : (natToDigits n).length ≠ 0 := by
    simpa [List.length_eq_zero] using natToDigits_ne_nil n
  rw [hcons] at hlen ⊢
  simp only [strtolModel, List.takeWhile_cons, hspace, Bool.false_eq_true,
    if_false, List.length_nil, List.drop_zero,
    show ((10 : Nat) = 16) = False by simp, if_neg hdash, if_neg hplus,
    ite_true, hread, hlen]
  simp only [Option.some.injEq, Prod.mk.injEq]
  omega

lemma strtolModel_neg_natToDigits (n : Nat) :
    strtolModel ('-' :: natToDigits n) 10
      = some (-(n : Int), (natToDigits n).length + 1) := by
  have hread := natToDigits_readDigits n
  have hlen : (natToDigits n).length ≠ 0 := by
    simpa [List.length_eq_zero] using natToDigits_ne_nil n
  simp only [strtolModel, List.takeWhile_cons, show isCSpace '-' = false by decide,
    Bool.false_eq_true, if_false, List.length_nil, List.drop_zero,
    show ((10 : Nat) = 16) = False by simp, if_pos rfl, ite_true, hread, hlen]
  simp only [Option.some.injEq, Prod.mk.injEq]
  omega

lemma natToDigits_no_hex (n : Nat) :
    ((natToDigits n).any fun c => c = 'X' || c = 'x') = false := by
  rw [Bool.eq_false_iff]
  intro hany
  rw [List.any_eq_true] at hany
  obtain ⟨c, hc, hx⟩ := hany
  obtain ⟨d, hd, rfl⟩ := natToDigits_digits hc
  rw [digitChar_ne_x hd] at hx
  cases hx

lemma intParseBase_neg_natToDigits (n : Nat) :
    intParseBase ('-' :: natToDigits n) = 10 := by
  simp [intParseBase, List.any_cons, natToDigits_no_hex n]

/-- Integer codec round trip: for every modelled integer target, parsing the
decimal rendering of an in-range value returns that value. -/
theorem fromStringInt_intToStr {signed : Bool} {bits : Nat} {v : Int}
    (h1 : intMin signed bits ≤ v) (h2 : v ≤ intMax signed bits) :
    fromStringInt signed bits (intToStr v) = .ok v := by
  by_cases hv : v < 0
  · cases signed with
    | false =>
      exfalso
      simp only [intMin, Bool.false_eq_true, if_false] at h1
      omega
    | true =>
      have hs : intToStr v = '-' :: natToDigits v.natAbs := by
        simp [intToStr, hv]
      have hveq : -((v.natAbs : Int)) = v := by omega
      rw [hs]
      simp only [fromStringInt, intParseBase_neg_natToDigits,
        Bool.not_true, Bool.false_and, Bool.false_eq_true, if_false,
        strtolModel_neg_natToDigits, List.length_cons]
      rw [if_pos]
      · rw [hveq]
      · refine ⟨trivial, ?_, ?_⟩ <;> rw [hveq]
        · exact h1
        · exact h2
  · have hm : ((v.natAbs : Int)) = v := by omega
    have hs : intToStr v = natToDigits v.natAbs := by
      simp [intToStr, hv]
    rw [hs]
    simp only [fromStringInt, intParseBase_natToDigits,
      natToDigits_no_dash, Bool.and_false, Bool.false_eq_true, if_false,
      strtolModel_natToDigits]
    rw [if_pos]
    · rw [hm]
    · refine ⟨trivial, ?_, ?_⟩ <;> rw [hm]
      · exact h1
      · exact h2

/-- Soundness of the integer codec's range check: a successful parse always
returns a value within the target's limits. -/
lemma fromStringInt_ok_range {signed : Bool} {bits : Nat} {s : List Char}
    {v : Int} (h : fromStringInt signed bits s = .ok v) :
    intMin signed bits ≤ v ∧ v ≤ intMax signed bits := by
  unfold fromStringInt at h
  split at h
  · cases h
  · split at h
    · cases h
    · split at h
      · next hc => cases h; exact ⟨hc.2.1, hc.2.2⟩
      · cases h

/-- The Boolean hex-trigger scan of `fromString` matches membership of `x`
or `X` in the token. -/
lemma any_hex_iff (s : List Char) :
    (s.any fun c => c = 'X' || c = 'x') = true ↔ ('x' ∈ s ∨ 'X' ∈ s) := by
  rw [List.any_eq_true]
  constructor
  · rintro ⟨c, hc, hx⟩
    have hcx : c = 'X' ∨ c = 'x' := by simpa using hx
    rcases hcx with rfl | rfl
    · exact .inr hc
    · exact .inl hc
  · rintro (hx | hX)
    · exact ⟨'x', hx, by decide⟩
    · exact ⟨'X', hX, by decide⟩

/-! ## Claims -/

/-- C1 (amended): rendering a value with the Value Codec and re-parsing the
rendered text reproduces the original value for every integer target at
every width and signedness; for a string target the re-parse instead
returns the quoted rendering itself (`fromString<std::string>` is the
identity and never strips the quotes that `toStream` adds). -/
theorem C1_codec_round_trip :
    (∀ (signed : Bool) (bits : Nat) (v : Int),
        intMin signed bits ≤ v → v ≤ intMax signed bits →
          fromStringInt signed bits (intToStr v) = .ok v) ∧
    (∀ s : List Char, fromStringStr (toStringStr s) = '"' :: (s ++ ['"'])) :=
  ⟨fun _ _ _ h1 h2 => fromStringInt_intToStr h1 h2, fun _ => rfl⟩

/-- C1 counterexample: the string payload `"s"` does not survive the
render-then-parse round trip - the rendered quotes are kept by the
re-parse, so the claim as stated is false for string-typed options. -/
theorem C1_codec_round_trip_counterexample :
    fromStringStr (toStringStr ['s']) ≠ ['s'] := by decide

/-- Witness for C1: concrete instantiation at the signed 32-bit value -5. -/
theorem C1_codec_round_trip_witness :
    (intMin true 32 ≤ (-5 : Int) ∧ (-5 : Int) ≤ intMax true 32) ∧
      fromStringInt true 32 (intToStr (-5)) = .ok (-5) :=
  ⟨⟨by decide, by decide⟩,
    C1_codec_round_trip.1 true 32 (-5) (by decide) (by decide)⟩

/-- C5: the integer codec accepts exactly the values representable at the
target's bit width and signedness: every accepted value is in range, every
in-range value is accepted (through its decimal rendering), and the stated
boundary inputs at 8, 32 and 64 bits are accepted respectively rejected
exactly as claimed. -/
theorem C5_integer_codec_bounds :
    (∀ (signed : Bool) (bits : Nat) (s : List Char) (v : Int),
        fromStringInt signed bits s = .ok v →
          intMin signed bits ≤ v ∧ v ≤ intMax signed bits) ∧
    (∀ (signed : Bool) (bits : Nat) (v : Int),
        intMin signed bits ≤ v → v ≤ intMax signed bits →
          fromStringInt signed bits (intToStr v) = .ok v) ∧
    (fromStringInt true 8 "-128".data = .ok (-128) ∧
      fromStringInt true 8 "127".data = .ok 127 ∧
      fromStringInt true 8 "-129".data
        = .error (msg "Cannot parse integer: " "-129".data) ∧
      fromStringInt true 8 "128".data
        = .error (msg "Cannot parse integer: " "128".data)) ∧
    (fromStringInt false 8 "0".data = .ok 0 ∧
      fromStringInt false 8 "255".data = .ok 255 ∧
      fromStringInt false 8 "-1".data
        = .error (msg "Cannot parse unsigned integer: " "-1".data) ∧
      fromStringInt false 8 "256".data
        = .error (msg "Cannot parse integer: " "256".data)) ∧
    (fromStringInt true 32 "-2147483648".data = .ok (-2147483648) ∧
      fromStringInt true 32 "2147483647".data = .ok 2147483647 ∧
      fromStringInt true 32 "-2147483649".data
        = .error (msg "Cannot parse integer: " "-2147483649".data) ∧
      fromStringInt true 32 "2147483648".data
        = .error (msg "Cannot parse integer: " "2147483648".data)) ∧
    (fromStringInt false 32 "0".data = .ok 0 ∧
      fromStringInt false 32 "4294967295".data = .ok 4294967295 ∧
      fromStringInt false 32 "-1".data
        = .error (msg "Cannot parse unsigned integer: " "-1".data) ∧
      fromStringInt false 32 "4294967296".data
        = .error (msg "Cannot parse integer: " "4294967296".data)) ∧
    (fromStringInt true 64 "-9223372036854775808".data
        = .ok (-9223372036854775808) ∧
      fromStringInt true 64 "9223372036854775807".data
        = .ok 9223372036854775807 ∧
      fromStringInt true 64 "-9223372036854775809".data
        = .error (msg "Cannot parse integer: " "-9223372036854775809".data) ∧
      fromStringInt true 64 "9223372036854775808".data
        = .error (msg "Cannot parse integer: " "9223372036854775808".data)) ∧
    (fromStringInt false 64 "0".data = .ok 0 ∧
      fromStringInt false 64 "18446744073709551615".data
        = .ok 18446744073709551615 ∧
      fromStringInt false 64 "-1".data
        = .error (msg "Cannot parse unsigned integer: " "-1".data) ∧
      fromStringInt false 64 "18446744073709551616".data
        = .error (msg "Cannot parse integer: " "18446744073709551616".data)) :=
  ⟨fun _ _ _ _ h => fromStringInt_ok_range h,
    fun _ _ _ h1 h2 => fromStringInt_intToStr h1 h2,
    by decide, by decide, by decide, by decide, by decide, by decide⟩

/-- Witness for C5: both universally quantified conjuncts applied at the
signed 8-bit value -3. -/
theorem C5_integer_codec_bounds_witness :
    (intMin true 8 ≤ (-3 : Int) ∧ (-3 : Int) ≤ intMax true 8) ∧
      fromStringInt true 8 (intToStr (-3)) = .ok (-3) :=
  ⟨C5_integer_codec_bounds.1 true 8 (intToStr (-3)) (-3)
      (C5_integer_codec_bounds.2.1 true 8 (-3) (by decide) (by decide)),
    C5_integer_codec_bounds.2.1 true 8 (-3) (by decide) (by decide)⟩

/-- C6: the integer parse base is decimal unless the token contains `x` or
`X` anywhere, in which case the whole token is parsed as base 16; in
particular `0x7fffffff` supplied to a signed 32-bit option binds
2147483647, while the decimal token one past the maximum is rejected with a
parse error. -/
theorem C6_hex_base_selection :
    (∀ s : List Char,
        (intParseBase s = 16 ↔ ('x' ∈ s ∨ 'X' ∈ s)) ∧
        (intParseBase s = 10 ↔ ¬('x' ∈ s ∨ 'X' ∈ s))) ∧
    optionTarget (parseAll c6Parser
        ["prog".data, "-i".data, "0x7fffffff".data]) 0
      = some (.vInt 2147483647) ∧
    resultExc (parseAll c6Parser
        ["prog".data, "-i".data, "2147483648".data])
      = some (.err (msg "Cannot parse integer: " "2147483648".data)) := by
  refine ⟨?_, by decide, by decide⟩
  intro s
  rw [← any_hex_iff s]
  unfold intParseBase
  by_cases hb : (s.any fun c => c = 'X' || c = 'x') = true
  · simp [hb]
  · simp [hb]


/-- A `ValueArg` parse never changes the captured default (nor the codec):
only the current target is overwritten. -/
lemma Arg.parse_valueKind {a a' : Arg} {codec : Codec} {cur dflt : Val}
    {s : List Char} (hk : a.kind = .valueKind codec cur dflt)
    (h : a.parse s = .ok a') :
    ∃ cur', a'.kind = .valueKind codec cur' dflt := by
  unfold Arg.parse at h
  rw [hk] at h
  dsimp only at h
  cases hc : codec.fromStr s with
  | error m => rw [hc] at h; cases h
  | ok v => rw [hc] at h; cases h; exact ⟨v, rfl⟩

/-- C7 (amended): for an optional value argument, when the default-value
intro is non-empty and the rendered default is non-empty, the glossary
appends the parenthesized default token to the description - and the value
rendered is the codec rendering of the default captured at declaration
time, independent of the currently bound target value. -/
theorem C7_glossary_default_suffix :
    (∀ (p : Parser) (a : Arg) (codec : Codec) (cur dflt : Val),
        a.kind = .valueKind codec cur dflt → a.isRequired = false →
        p.defaultIntro ≠ [] → codec.toStr dflt ≠ [] →
          glossaryDescription p a
            = tokenize a.description ++
              [('(' :: p.defaultIntro) ++ codec.toStr dflt ++ [')']]) ∧
    (∀ (shortName : Char) (longName valueName description : List Char)
        (isRequired : Bool) (codec : Codec) (target : Val),
        (valueArg shortName longName valueName description isRequired codec
            target).kind = .valueKind codec target target) ∧
    (∀ (a a' : Arg) (codec : Codec) (cur dflt : Val) (s : List Char),
        a.kind = .valueKind codec cur dflt → a.parse s = .ok a' →
          ∃ cur', a'.kind = .valueKind codec cur' dflt) := by
  refine ⟨?_, fun _ _ _ _ _ _ _ => rfl, fun _ _ _ _ _ _ hk h => Arg.parse_valueKind hk h⟩
  intro p a codec cur dflt hk hreq hintro hval
  have hdef : a.getDefaultValue = codec.toStr dflt := by
    unfold Arg.getDefaultValue Arg.doGetDefaultValue
    rw [hreq, hk]
    simp
  unfold glossaryDescription
  rw [if_pos hintro, hdef, if_pos hval]

/-- C7 counterexample: after `-i 7` the bound target holds 7, yet the
glossary renders `(default: 5)` - the declaration-time capture - not the
current bound value 7, refuting the claim as stated. -/
theorem C7_glossary_default_suffix_counterexample :
    optionTarget (parseAll c7Parser ["p".data, "-i".data, "7".data]) 0
      = some (.vInt 7) ∧
    (c7Parsed.options.head?.map (glossaryDescription c7Parsed))
      = some (tokenize "desc".data ++ ["(default: 5)".data]) ∧
    ("(default: 5)".data : List Char) ≠ "(default: 7)".data := by
  refine ⟨by decide, by decide, by decide⟩

/-- Witness for C7: the first conjunct applied to the `c7Parser` option with
current value 7 and captured default 5. -/
theorem C7_glossary_default_suffix_witness :
    glossaryDescription c7Parser
        { valueArg 'i' [] [] "desc".data false (intCodec true 32) (.vInt 5)
            with kind := .valueKind (intCodec true 32) (.vInt 7) (.vInt 5) }
      = tokenize "desc".data ++
        [('(' :: c7Parser.defaultIntro) ++ (intCodec true 32).toStr (.vInt 5)
          ++ [')']] :=
  C7_glossary_default_suffix.1 c7Parser _ (intCodec true 32) (.vInt 7)
    (.vInt 5) rfl rfl (by decide) (by decide)

/-- C8: the word-wrapping loop breaks before a token exactly when the token
is the explicit-newline token, or when appending it (plus the pending
separating spaces) would exceed the width while the position is already past
the hanging indent; a single token longer than the width is emitted unsplit
at the start of its own line, and width 0 is legal. -/
theorem C8_wrap_break_conditions :
    (∀ (w h : Nat) (st : WrapSt),
        wrapToken w h st ['\n'] = ⟨0, h, st.out ++ ['\n']⟩) ∧
    (∀ (w h : Nat) (st : WrapSt) (tok : List Char), tok ≠ ['\n'] →
        st.pos + st.spaces + tok.length ≤ w →
          wrapToken w h st tok
            = ⟨st.pos + st.spaces + tok.length, 1,
                st.out ++ spacesStr st.spaces ++ tok⟩) ∧
    (∀ (w h : Nat) (st : WrapSt) (tok : List Char), tok ≠ ['\n'] →
        st.pos ≤ h →
          wrapToken w h st tok
            = ⟨st.pos + st.spaces + tok.length, 1,
                st.out ++ spacesStr st.spaces ++ tok⟩) ∧
    (∀ (w h : Nat) (st : WrapSt) (tok : List Char), tok ≠ ['\n'] →
        w < st.pos + st.spaces + tok.length → h < st.pos →
          wrapToken w h st tok
            = ⟨h + tok.length, 1,
                st.out ++ ['\n'] ++ spacesStr h ++ tok⟩) ∧
    writeWrapped 21 ["abc".data, "abcdefghijklmnopqrstuvw".data] 0 0
      = "abc\nabcdefghijklmnopqrstuvw".data ∧
    writeWrapped 0 ["ab".data, "c".data] 0 0 = "ab\nc".data := by
  refine ⟨?_, ?_, ?_, ?_, by decide, by decide⟩
  · intro w h st
    unfold wrapToken
    rw [if_pos (Or.inl rfl), if_pos rfl]
  · intro w h st tok hnl hle
    unfold wrapToken
    rw [if_neg]
    intro hc
    rcases hc with hc | hc
    · exact hnl hc
    · omega
  · intro w h st tok hnl hle
    unfold wrapToken
    rw [if_neg]
    intro hc
    rcases hc with hc | hc
    · exact hnl hc
    · omega
  · intro w h st tok hnl hov hpos
    unfold wrapToken
    rw [if_pos (Or.inr ⟨hov, hpos⟩), if_neg hnl]
    simp

/-- Witness for C8: the overflow-break conjunct applied at width 21 with a
23-character token sitting past the hanging indent. -/
theorem C8_wrap_break_conditions_witness :
    wrapToken 21 0 ⟨3, 1, "abc".data⟩ "abcdefghijklmnopqrstuvw".data
      = ⟨23, 1, "abc\nabcdefghijklmnopqrstuvw".data⟩ :=
  C8_wrap_break_conditions.2.2.2.1 21 0 ⟨3, 1, "abc".data⟩
    "abcdefghijklmnopqrstuvw".data (by decide) (by decide) (by decide)

/-! ## Parse-engine lemmas -/

lemma parseTerminator_nil (p : Parser) : parseTerminator p [] = (p, []) := rfl

/-- The terminator stage leaves the tokens alone when already terminated,
when the terminator is disabled, or when the head token differs from it. -/
lemma parseTerminator_skip {p : Parser} {tok : List Char}
    (h : p.isTerminated = true ∨ p.terminator = [] ∨ tok ≠ p.terminator)
    (rest : List (List Char)) :
    parseTerminator p (tok :: rest) = (p, tok :: rest) := by
  have hcond : (p.isTerminated || decide (p.terminator = [])
      || decide (tok ≠ p.terminator)) = true := by
    rcases h with h | h | h <;> simp [h]
  simp only [parseTerminator]
  rw [if_pos hcond]

/-- The first terminator token is consumed and flips the sticky state. -/
lemma parseTerminator_match {p : Parser} (h1 : p.isTerminated = false)
    (h2 : p.terminator ≠ []) (rest : List (List Char)) :
    parseTerminator p (p.terminator :: rest)
      = ({ p with isTerminated := true }, rest) := by
  have hcond : (p.isTerminated || decide (p.terminator = [])
      || decide (p.terminator ≠ p.terminator)) = false := by
    simp [h1, h2]
  simp only [parseTerminator]
  rw [hcond]
  simp

lemma splitAtSep_not_mem {sep : Char} {l : List Char} (h : sep ∉ l) :
    splitAtSep sep l = (l, none) := by
  induction l with
  | nil => rfl
  | cons c rest ih =>
    have hc : ¬(c = sep) := fun he => h (by simp [he])
    unfold splitAtSep
    rw [if_neg hc, ih (fun hm => h (List.mem_cons_of_mem c hm))]

lemma splitAtSep_append {sep : Char} {l v : List Char} (h : sep ∉ l) :
    splitAtSep sep (l ++ sep :: v) = (l, some v) := by
  induction l with
  | nil => simp [splitAtSep]
  | cons c rest ih =>
    have hc : ¬(c = sep) := fun he => h (by simp [he])
    simp only [List.cons_append]
    unfold splitAtSep
    rw [if_neg hc, ih (fun hm => h (List.mem_cons_of_mem c hm))]

/-- First-match long-name lookup: the first option with the looked-up long
name is found, at its index. -/
lemma findOptionLong_first {name : List Char} :
    ∀ (pre : List Arg) (a : Arg) (post : List Arg),
      (∀ b ∈ pre, b.longName ≠ name) → a.longName = name →
      findOptionLong (pre ++ a :: post) name = some (pre.length, a) := by
  intro pre
  induction pre with
  | nil =>
    intro a post _ ha
    simp only [List.nil_append, findOptionLong, if_pos ha, List.length_nil]
  | cons b rest ih =>
    intro a post hpre ha
    have hb : b.longName ≠ name := hpre b (List.mem_cons_self b rest)
    simp only [List.cons_append, findOptionLong, if_neg hb, List.append_eq]
    rw [ih a post (fun x hx => hpre x (List.mem_cons_of_mem b hx)) ha]
    simp

/-- First-match short-name lookup. -/
lemma findOptionShort_first {name : Char} :
    ∀ (pre : List Arg) (a : Arg) (post : List Arg),
      (∀ b ∈ pre, b.shortName ≠ name) → a.shortName = name →
      findOptionShort (pre ++ a :: post) name = some (pre.length, a) := by
  intro pre
  induction pre with
  | nil =>
    intro a post _ ha
    simp only [List.nil_append, findOptionShort, if_pos ha, List.length_nil]
  | cons b rest ih =>
    intro a post hpre ha
    have hb : b.shortName ≠ name := hpre b (List.mem_cons_self b rest)
    simp only [List.cons_append, findOptionShort, if_neg hb, List.append_eq]
    rw [ih a post (fun x hx => hpre x (List.mem_cons_of_mem b hx)) ha]
    simp

/-- One options-loop iteration whose long-option stage throws. -/
lemma parseOptionsGo_error_long {p : Parser} {toks : List (List Char)}
    {e : PFail} (fuel : Nat)
    (ht : parseTerminator p toks = (p, toks))
    (hl : parseLongOption p toks = .error e) :
    parseOptionsGo (fuel + 1) p toks = .error e := by
  unfold parseOptionsGo
  rw [ht]
  simp only [lt_irrefl, if_false]
  rw [hl]

/-- One options-loop iteration whose short-option stage throws. -/
lemma parseOptionsGo_error_short {p : Parser} {toks : List (List Char)}
    {e : PFail} (fuel : Nat)
    (ht : parseTerminator p toks = (p, toks))
    (hl : parseLongOption p toks = .ok (p, toks))
    (hs : parseShortOptions p toks = .error e) :
    parseOptionsGo (fuel + 1) p toks = .error e := by
  unfold parseOptionsGo
  rw [ht]
  simp only [lt_irrefl, if_false]
  rw [hl]
  simp only [lt_irrefl, if_false]
  rw [hs]

/-- One options-loop iteration that consumed tokens via the long stage. -/
lemma parseOptionsGo_step_long {p p' : Parser}
    {toks toks' : List (List Char)} (fuel : Nat)
    (ht : parseTerminator p toks = (p, toks))
    (hl : parseLongOption p toks = .ok (p', toks'))
    (hlt : toks'.length < toks.length) :
    parseOptionsGo (fuel + 1) p toks = parseOptionsGo fuel p' toks' := by
  conv_lhs => unfold parseOptionsGo
  rw [ht]
  simp only [lt_irrefl, if_false]
  rw [hl]
  dsimp only
  rw [if_pos hlt]

/-- One options-loop iteration that consumed tokens via the short stage. -/
lemma parseOptionsGo_step_short {p p' : Parser}
    {toks toks' : List (List Char)} (fuel : Nat)
    (ht : parseTerminator p toks = (p, toks))
    (hl : parseLongOption p toks = .ok (p, toks))
    (hs : parseShortOptions p toks = .ok (p', toks'))
    (hlt : toks'.length < toks.length) :
    parseOptionsGo (fuel + 1) p toks = parseOptionsGo fuel p' toks' := by
  conv_lhs => unfold parseOptionsGo
  rw [ht]
  simp only [lt_irrefl, if_false]
  rw [hl]
  dsimp only
  simp only [lt_irrefl, if_false]
  rw [hs]
  dsimp only
  rw [if_pos hlt]

/-- The options loop stops on an empty token list. -/
lemma parseOptionsGo_nil (fuel : Nat) (p : Parser) :
    parseOptionsGo fuel p [] = .ok (p, []) := by
  cases fuel with
  | zero => rfl
  | succ fuel =>
    unfold parseOptionsGo
    rw [parseTerminator_nil]
    simp [parseLongOption, parseShortOptions, predictLongOption,
      predictShortOption]

/-- A failing options stage makes the whole parse fail identically. -/
lemma parseAll_options_error {p : Parser} {toks : List (List Char)}
    {e : PFail}
    (hopts : parseOptions (parseUtility p toks).1 (parseUtility p toks).2
      = .error e) :
    parseAll p toks = .error e := by
  unfold parseAll
  rcases hu : parseUtility p toks with ⟨p1, t1⟩
  rw [hu] at hopts
  dsimp only at hopts ⊢
  rw [hopts]

/-- C4: matching a Signal argument during the options stage - long or short
form - aborts the parse at that instant with a `Signal` outcome carrying the
argument's short and long name, even when required options or operands (in
`pre`, `post` or the operand registry) are unsatisfied, since the abort
happens before every later stage including the required check; the outcome
is distinguishable from an ordinary error by construction. -/
theorem C4_signal_aborts_parse :
    (∀ (p : Parser) (pre post : List Arg) (sc : Char) (sl desc u : List Char)
        (rest : List (List Char)),
        p.isTerminated = false → p.utilityName = [] →
        p.longPrefix = ['-', '-'] → p.terminator = ['-', '-'] →
        p.longSeparator = '=' →
        p.options = pre ++ signalArg sc sl desc :: post →
        sl ≠ [] → ('=' : Char) ∉ sl → (∀ b ∈ pre, b.longName ≠ sl) →
        parseAll p (u :: ('-' :: '-' :: sl) :: rest)
          = .error ({ p with utilityName := u }, .sig sc sl)) ∧
    (∀ (p : Parser) (pre post : List Arg) (sc : Char) (sl desc u : List Char)
        (rest : List (List Char)),
        p.isTerminated = false → p.utilityName = [] →
        p.longPrefix = ['-', '-'] → p.terminator = ['-', '-'] →
        p.shortPrefix = '-' →
        p.options = pre ++ signalArg sc sl desc :: post →
        sc ≠ '-' → sc ≠ noShort → (∀ b ∈ pre, b.shortName ≠ sc) →
        parseAll p (u :: ['-', sc] :: rest)
          = .error ({ p with utilityName := u }, .sig sc sl)) ∧
    (∀ (sc : Char) (sl m : List Char), ParseExc.sig sc sl ≠ ParseExc.err m) := by
  refine ⟨?_, ?_, fun _ _ _ h => by cases h⟩
  · intro p pre post sc sl desc u rest hterm0 hutil hlp htm hsep0 hopt hsl
      hsep hpreL
    have hu : parseUtility p (u :: ('-' :: '-' :: sl) :: rest)
        = ({ p with utilityName := u }, ('-' :: '-' :: sl) :: rest) := by
      simp [parseUtility, hutil]
    apply parseAll_options_error
    rw [hu]
    unfold parseOptions
    have hTne : ('-' :: '-' :: sl)
        ≠ ({ p with utilityName := u }).terminator := by
      show ('-' :: '-' :: sl) ≠ p.terminator
      rw [htm]
      intro he
      exact hsl (by simpa using he)
    have ht : parseTerminator { p with utilityName := u }
        (('-' :: '-' :: sl) :: rest)
        = ({ p with utilityName := u }, ('-' :: '-' :: sl) :: rest) :=
      parseTerminator_skip (.inr (.inr hTne)) rest
    apply parseOptionsGo_error_long _ ht
    have hlen : 0 < sl.length := List.length_pos.mpr hsl
    have hpred : predictLongOption { p with utilityName := u }
        (('-' :: '-' :: sl) :: rest) = true := by
      simp [predictLongOption, hterm0, hlp, List.isPrefixOf]
      omega
    simp only [parseLongOption, hpred, if_true]
    rw [hlp, hsep0]
    simp only [List.drop_succ_cons, List.drop_zero, List.length_cons,
      List.length_nil]
    rw [splitAtSep_not_mem hsep]
    dsimp only
    unfold getOptionLong
    rw [if_neg hsl]
    dsimp only
    rw [hopt, findOptionLong_first pre (signalArg sc sl desc) post hpreL rfl]
    dsimp only
    simp [signalArg, Arg.done]
  · intro p pre post sc sl desc u rest hterm0 hutil hlp htm hsp hopt hscDash
      hscNul hpreS
    have hu : parseUtility p (u :: ['-', sc] :: rest)
        = ({ p with utilityName := u }, ['-', sc] :: rest) := by
      simp [parseUtility, hutil]
    apply parseAll_options_error
    rw [hu]
    unfold parseOptions
    have hTne : (['-', sc] : List Char)
        ≠ ({ p with utilityName := u }).terminator := by
      show (['-', sc] : List Char) ≠ p.terminator
      rw [htm]
      intro he
      exact hscDash (by simpa using he)
    have ht : parseTerminator { p with utilityName := u } (['-', sc] :: rest)
        = ({ p with utilityName := u }, ['-', sc] :: rest) :=
      parseTerminator_skip (.inr (.inr hTne)) rest
    have hpredL : predictLongOption { p with utilityName := u }
        (['-', sc] :: rest) = false := by
      simp [predictLongOption, hlp]
    have hl : parseLongOption { p with utilityName := u } (['-', sc] :: rest)
        = .ok ({ p with utilityName := u }, ['-', sc] :: rest) := by
      simp [parseLongOption, hpredL]
    apply parseOptionsGo_error_short _ ht hl
    have hpredS : predictShortOption { p with utilityName := u }
        (['-', sc] :: rest) = true := by
      simp [predictShortOption, hterm0, hsp]
    simp only [parseShortOptions, hpredS, if_true]
    simp only [List.drop_succ_cons, List.drop_zero]
    unfold parseShortCluster
    unfold getOptionShort
    rw [if_neg hscNul]
    dsimp only
    rw [hopt, findOptionShort_first pre (signalArg sc sl desc) post hpreS rfl]
    dsimp only
    simp [signalArg, Arg.done]

/-- Witness for C4: the `--help` signal with an unsatisfied required option
still yields the signal outcome, via both the long and the short form. -/
theorem C4_signal_aborts_parse_witness :
    parseAll c4Parser (['p'] :: ('-' :: '-' :: ['h', 'e', 'l', 'p']) :: [])
      = .error ({ c4Parser with utilityName := ['p'] },
          .sig 'h' ['h', 'e', 'l', 'p']) ∧
    parseAll c4Parser (['p'] :: ['-', 'h'] :: [])
      = .error ({ c4Parser with utilityName := ['p'] },
          .sig 'h' ['h', 'e', 'l', 'p']) :=
  ⟨C4_signal_aborts_parse.1 c4Parser [] [boolArg 'b' [] [] true false] 'h'
      ['h', 'e', 'l', 'p'] [] ['p'] [] rfl rfl rfl rfl rfl rfl
      (by decide) (by decide) (by simp),
    C4_signal_aborts_parse.2.1 c4Parser [] [boolArg 'b' [] [] true false] 'h'
      ['h', 'e', 'l', 'p'] [] ['p'] [] rfl rfl rfl rfl rfl rfl
      (by decide) (by decide) (by simp)⟩

/-- `parseLongOption` hitting a value option with a merged value after the
separator. -/
lemma parseLongOption_value_merged {p : Parser} {l V : List Char}
    {rest : List (List Char)} {i : Nat} {a o₁ o₂ : Arg}
    (hpred : predictLongOption p
      ((p.longPrefix ++ (l ++ p.longSeparator :: V)) :: rest) = true)
    (hsepl : p.longSeparator ∉ l)
    (hget : getOptionLong p l = .ok (i, a))
    (hhas : a.hasValue = true)
    (hparse : a.parse V = .ok o₁) (hdone : o₁.done = .ok o₂) :
    parseLongOption p ((p.longPrefix ++ (l ++ p.longSeparator :: V)) :: rest)
      = .ok ({ p with options := p.options.set i o₂ }, rest) := by
  simp only [parseLongOption, hpred, if_true]
  rw [List.drop_left]
  rw [splitAtSep_append hsepl]
  dsimp only
  rw [hget]
  dsimp only
  rw [hhas]
  simp only [if_true]
  rw [hparse]
  dsimp only
  rw [hdone]

/-- `parseLongOption` hitting a value option that takes the next token as
its value. -/
lemma parseLongOption_value_next {p : Parser} {l v : List Char}
    {rest : List (List Char)} {i : Nat} {a o₁ o₂ : Arg}
    (hpred : predictLongOption p ((p.longPrefix ++ l) :: v :: rest) = true)
    (hsepl : p.longSeparator ∉ l)
    (hget : getOptionLong p l = .ok (i, a))
    (hhas : a.hasValue = true)
    (hparse : a.parse v = .ok o₁) (hdone : o₁.done = .ok o₂) :
    parseLongOption p ((p.longPrefix ++ l) :: v :: rest)
      = .ok ({ p with options := p.options.set i o₂ }, rest) := by
  simp only [parseLongOption, hpred, if_true]
  rw [List.drop_left]
  rw [splitAtSep_not_mem hsepl]
  dsimp only
  rw [hget]
  dsimp only
  rw [hhas]
  simp only [if_true]
  rw [hparse]
  dsimp only
  rw [hdone]

/-- `parseShortOptions` on a lone short value option taking the next token
as its value. -/
lemma parseShortOptions_single_next {p : Parser} {c : Char}
    {v : List Char} {rest : List (List Char)} {i : Nat} {a o₁ o₂ : Arg}
    (hterm : p.isTerminated = false) (hc : c ≠ noShort)
    (hfind : findOptionShort p.options c = some (i, a))
    (hhas : a.hasValue = true)
    (hparse : a.parse v = .ok o₁) (hdone : o₁.done = .ok o₂) :
    parseShortOptions p ([p.shortPrefix, c] :: v :: rest)
      = .ok ({ p with options := p.options.set i o₂ }, rest) := by
  have hpred : predictShortOption p ([p.shortPrefix, c] :: v :: rest)
      = true := by
    simp [predictShortOption, hterm]
  simp only [parseShortOptions, hpred, if_true]
  simp only [List.drop_succ_cons, List.drop_zero]
  unfold parseShortCluster
  unfold getOptionShort
  rw [if_neg hc]
  dsimp only
  rw [hfind]
  dsimp only
  rw [hhas]
  simp only [if_true]
  rw [hparse]
  dsimp only
  rw [hdone]

/-- `parseShortOptions` on a lone short value option whose next-token value
fails to convert: the error carries the parser state unchanged. -/
lemma parseShortOptions_single_next_err {p : Parser} {c : Char}
    {v m : List Char} {rest : List (List Char)} {i : Nat} {a : Arg}
    (hterm : p.isTerminated = false) (hc : c ≠ noShort)
    (hfind : findOptionShort p.options c = some (i, a))
    (hhas : a.hasValue = true)
    (hparse : a.parse v = .error m) :
    parseShortOptions p ([p.shortPrefix, c] :: v :: rest)
      = .error (p, .err m) := by
  have hpred : predictShortOption p ([p.shortPrefix, c] :: v :: rest)
      = true := by
    simp [predictShortOption, hterm]
  simp only [parseShortOptions, hpred, if_true]
  simp only [List.drop_succ_cons, List.drop_zero]
  unfold parseShortCluster
  unfold getOptionShort
  rw [if_neg hc]
  dsimp only
  rw [hfind]
  dsimp only
  rw [hhas]
  simp only [if_true]
  rw [hparse]

/-- `parseShortOptions` on a short value option with the value merged into
the same token. -/
lemma parseShortOptions_single_merged {p : Parser} {c : Char}
    {V : List Char} {rest : List (List Char)} {i : Nat} {a o₁ o₂ : Arg}
    (hterm : p.isTerminated = false) (hc : c ≠ noShort) (hV : V ≠ [])
    (hfind : findOptionShort p.options c = some (i, a))
    (hhas : a.hasValue = true)
    (hparse : a.parse V = .ok o₁) (hdone : o₁.done = .ok o₂) :
    parseShortOptions p ((p.shortPrefix :: c :: V) :: rest)
      = .ok ({ p with options := p.options.set i o₂ }, rest) := by
  have hpred : predictShortOption p ((p.shortPrefix :: c :: V) :: rest)
      = true := by
    simp [predictShortOption, hterm]
  simp only [parseShortOptions, hpred, if_true]
  simp only [List.drop_succ_cons, List.drop_zero]
  unfold parseShortCluster
  unfold getOptionShort
  rw [if_neg hc]
  try dsimp only
  rw [hfind]
  dsimp only
  rw [hhas]
  simp only [if_true]
  cases V with
  | nil => exact absurd rfl hV
  | cons x xs =>
    rw [hparse]
    dsimp only
    rw [hdone]

/-- C9: when a parse attempt fails with an ordinary error, every bound
target retains what was written before the failure point: after `-a V1`
succeeds and the value of `-b` fails to convert, the failure state still
holds `w` (the value bound during this parse) in the first option's target,
while the second option keeps its prior value - nothing is rolled back. -/
theorem C9_targets_retained_on_error :
    ∀ (p : Parser) (c1 c2 : Char) (cod1 cod2 : Codec) (t1 t2 : Val)
      (V1 V2 u : List Char) (w : Val) (m : List Char),
      p.isTerminated = false → p.utilityName = [] →
      p.longPrefix = ['-', '-'] → p.terminator = ['-', '-'] →
      p.shortPrefix = '-' →
      p.options = [valueArg c1 [] [] [] false cod1 t1,
        valueArg c2 [] [] [] false cod2 t2] →
      c1 ≠ '-' → c2 ≠ '-' → c1 ≠ noShort → c2 ≠ noShort → c2 ≠ c1 →
      cod1.fromStr V1 = .ok w → cod2.fromStr V2 = .error m →
      resultExc (parseAll p (u :: [p.shortPrefix, c1] :: V1 ::
          [p.shortPrefix, c2] :: V2 :: [])) = some (.err m) ∧
      optionTarget (parseAll p (u :: [p.shortPrefix, c1] :: V1 ::
          [p.shortPrefix, c2] :: V2 :: [])) 0 = some w ∧
      optionTarget (parseAll p (u :: [p.shortPrefix, c1] :: V1 ::
          [p.shortPrefix, c2] :: V2 :: [])) 1 = some t2 := by
  intro p c1 c2 cod1 cod2 t1 t2 V1 V2 u w m hterm0 hutil hlp htm hsp hopt
    h1 h2 h3 h4 h5 hok herr
  have hres : parseAll p
      (u :: [p.shortPrefix, c1] :: V1 :: [p.shortPrefix, c2] :: V2 :: [])
      = .error ({ p with
          utilityName := u,
          options := [⟨c1, [], [], [], false, true, false, true,
              .valueKind cod1 w t1⟩,
            valueArg c2 [] [] [] false cod2 t2] }, .err m) := by
      apply parseAll_options_error
      have hu : parseUtility p
          (u :: [p.shortPrefix, c1] :: V1 :: [p.shortPrefix, c2] :: V2 :: [])
          = ({ p with utilityName := u },
            [p.shortPrefix, c1] :: V1 :: [p.shortPrefix, c2] :: V2 :: []) := by
        simp [parseUtility, hutil]
      rw [hu]
      dsimp only
      unfold parseOptions
      have hT1 : ([p.shortPrefix, c1] : List Char)
          ≠ ({ p with utilityName := u }).terminator := by
        show ([p.shortPrefix, c1] : List Char) ≠ p.terminator
        rw [htm, hsp]
        intro he
        exact h1 (by simpa using he)
      have ht1 := parseTerminator_skip (p := { p with utilityName := u })
        (.inr (.inr hT1)) (V1 :: [p.shortPrefix, c2] :: V2 :: [])
      have hpredL1 : predictLongOption { p with utilityName := u }
          ([p.shortPrefix, c1] :: V1 :: [p.shortPrefix, c2] :: V2 :: [])
          = false := by
        simp [predictLongOption, hlp]
      have hl1 : parseLongOption { p with utilityName := u }
          ([p.shortPrefix, c1] :: V1 :: [p.shortPrefix, c2] :: V2 :: [])
          = .ok ({ p with utilityName := u },
            [p.shortPrefix, c1] :: V1 :: [p.shortPrefix, c2] :: V2 :: []) := by
        simp [parseLongOption, hpredL1]
      have hparse1 : (valueArg c1 [] [] [] false cod1 t1).parse V1
          = .ok ⟨c1, [], [], [], false, true, false, false,
              .valueKind cod1 w t1⟩ := by
        unfold Arg.parse valueArg
        dsimp only
        rw [hok]
      have hdone1 : (⟨c1, [], [], [], false, true, false, false,
          .valueKind cod1 w t1⟩ : Arg).done
          = .ok ⟨c1, [], [], [], false, true, false, true,
              .valueKind cod1 w t1⟩ := by
        unfold Arg.done
        rfl
      have hfind1 : findOptionShort ({ p with utilityName := u }).options c1
          = some (0, valueArg c1 [] [] [] false cod1 t1) := by
        show findOptionShort p.options c1 = _
        rw [hopt]
        exact findOptionShort_first [] _ _ (by simp) rfl
      have hs1 := @parseShortOptions_single_next { p with utilityName := u }
        c1 V1 ([p.shortPrefix, c2] :: V2 :: []) _ _ _ _
        hterm0 h3 hfind1 rfl hparse1 hdone1
      have hstep := parseOptionsGo_step_short
        ((V1 :: [p.shortPrefix, c2] :: V2 :: []).length + 1) ht1 hl1 hs1
        (by simp)
      rw [show ([p.shortPrefix, c1] :: V1 :: [p.shortPrefix, c2] :: V2 :: []).length + 1
          = (V1 :: [p.shortPrefix, c2] :: V2 :: []).length + 1 + 1 from by simp] 
      rw [hstep]
      dsimp only
      rw [hopt]
      simp only [List.set]
      -- iteration 2: fail on V2
      apply parseOptionsGo_error_short
      · apply parseTerminator_skip
        refine .inr (.inr ?_)
        show ([p.shortPrefix, c2] : List Char) ≠ p.terminator
        rw [htm, hsp]
        intro he
        exact h2 (by simpa using he)
      · simp [parseLongOption, predictLongOption, hlp]
      · have hparse2 : (valueArg c2 [] [] [] false cod2 t2).parse V2
            = .error m := by
          unfold Arg.parse valueArg
          dsimp only
          rw [herr]
        have hne : ¬((c1 : Char) = c2) := fun he => h5 he.symm
        have hfind2 : findOptionShort
            [(⟨c1, [], [], [], false, true, false, true,
                .valueKind cod1 w t1⟩ : Arg),
              valueArg c2 [] [] [] false cod2 t2] c2
            = some (1, valueArg c2 [] [] [] false cod2 t2) := by
          simp [findOptionShort, valueArg, hne]
        exact parseShortOptions_single_next_err hterm0 h4 hfind2 rfl hparse2

  rw [hres]
  refine ⟨rfl, ?_, ?_⟩
  · simp [optionTarget, Arg.targetVal]
  · simp [optionTarget, Arg.targetVal, valueArg]

/-- Witness for C9: a string option `-a` bound to "A" before an integer
option `-b` rejects "zz"; the failure state keeps "A". -/
theorem C9_targets_retained_on_error_witness :
    resultExc (parseAll
        { options := [valueArg 'a' [] [] [] false strCodec (.vStr ['d']),
            valueArg 'b' [] [] [] false (intCodec true 32) (.vInt 1)] }
        (['p'] :: ['-', 'a'] :: ['A'] :: ['-', 'b'] :: ['z', 'z'] :: []))
      = some (.err (msg "Cannot parse integer: " ['z', 'z'])) ∧
    optionTarget (parseAll
        { options := [valueArg 'a' [] [] [] false strCodec (.vStr ['d']),
            valueArg 'b' [] [] [] false (intCodec true 32) (.vInt 1)] }
        (['p'] :: ['-', 'a'] :: ['A'] :: ['-', 'b'] :: ['z', 'z'] :: [])) 0
      = some (.vStr ['A']) ∧
    optionTarget (parseAll
        { options := [valueArg 'a' [] [] [] false strCodec (.vStr ['d']),
            valueArg 'b' [] [] [] false (intCodec true 32) (.vInt 1)] }
        (['p'] :: ['-', 'a'] :: ['A'] :: ['-', 'b'] :: ['z', 'z'] :: [])) 1
      = some (.vInt 1) :=
  C9_targets_retained_on_error
    { options := [valueArg 'a' [] [] [] false strCodec (.vStr ['d']),
        valueArg 'b' [] [] [] false (intCodec true 32) (.vInt 1)] }
    'a' 'b' strCodec (intCodec true 32) (.vStr ['d']) (.vInt 1)
    ['A'] ['z', 'z'] ['p'] (.vStr ['A'])
    (msg "Cannot parse integer: " ['z', 'z'])
    rfl rfl rfl rfl rfl rfl
    (by decide) (by decide) (by decide) (by decide) (by decide)
    rfl (by decide)


/-- A parse whose options stage consumes everything, with no operands
declared and all required options satisfied, succeeds. -/
lemma parseAll_ok_of_stages {p : Parser} {toks : List (List Char)}
    {p' : Parser}
    (hopts : parseOptions (parseUtility p toks).1 (parseUtility p toks).2
      = .ok (p', []))
    (hops : p'.operands = [])
    (hreq : checkRequired p' p'.options = .ok ()) :
    parseAll p toks = .ok p' := by
  unfold parseAll
  rcases hu : parseUtility p toks with ⟨p1, t1⟩
  rw [hu] at hopts
  dsimp only at hopts ⊢
  rw [hopts]
  dsimp only
  unfold parseOperands
  rw [hops]
  dsimp only [List.length_nil, parseOperandsGo, parseTerminator_nil]
  dsimp only [checkEnd]
  rw [hreq, hops]
  rfl

/-- C2 (amended): for a declared value option with both names (short name
not the prefix character or nul, long name non-empty and free of the
separator) and every non-empty value text V, all supply forms - V merged
after the separator in the long form, V as the next token after the long
form, V merged after the short character, and V as the next token after the
short form - produce the identical final parser state, binding V's
converted value; the empty merged value remains available in the long form
(the hypothesis V ≠ [] is needed only by the short-merged conjunct). -/
theorem C2_value_supply_forms_agree :
    ∀ (p : Parser) (c : Char) (l vn desc : List Char) (req : Bool)
      (codec : Codec) (t0 : Val) (V u : List Char) (w : Val),
      p.isTerminated = false → p.utilityName = [] →
      p.longPrefix = ['-', '-'] → p.terminator = ['-', '-'] →
      p.options = [valueArg c l vn desc req codec t0] →
      p.operands = [] →
      l ≠ [] → p.longSeparator ∉ l → c ≠ '-' → c ≠ noShort →
      codec.fromStr V = .ok w →
      (parseAll p (u :: (p.longPrefix ++ (l ++ p.longSeparator :: V)) :: [])
        = .ok ({ p with
            utilityName := u,
            options := [⟨c, l, vn, desc, req, true, false, true,
              .valueKind codec w t0⟩] })) ∧
      (parseAll p (u :: (p.longPrefix ++ l) :: V :: [])
        = .ok ({ p with
            utilityName := u,
            options := [⟨c, l, vn, desc, req, true, false, true,
              .valueKind codec w t0⟩] })) ∧
      (V ≠ [] →
        parseAll p (u :: (p.shortPrefix :: c :: V) :: [])
          = .ok ({ p with
              utilityName := u,
              options := [⟨c, l, vn, desc, req, true, false, true,
                .valueKind codec w t0⟩] })) ∧
      (parseAll p (u :: [p.shortPrefix, c] :: V :: [])
        = .ok ({ p with
            utilityName := u,
            options := [⟨c, l, vn, desc, req, true, false, true,
              .valueKind codec w t0⟩] })) ∧
      optionTarget (.ok ({ p with
          utilityName := u,
          options := [⟨c, l, vn, desc, req, true, false, true,
            .valueKind codec w t0⟩] }) : Except PFail Parser) 0
        = some w := by
  intro p c l vn desc req codec t0 V u w hterm0 hutil hlp htm hopt hops hl
    hsepl hc1 hc2 hok
  refine ⟨?_, ?_, ?_, ?_, by simp [optionTarget, Arg.targetVal]⟩
  · -- long form, merged value
    have hparse : (valueArg c l vn desc req codec t0).parse V
        = .ok ⟨c, l, vn, desc, req, true, false, false,
            .valueKind codec w t0⟩ := by
      unfold Arg.parse valueArg
      dsimp only
      rw [hok]
    have hdone : (⟨c, l, vn, desc, req, true, false, false,
        .valueKind codec w t0⟩ : Arg).done
        = .ok ⟨c, l, vn, desc, req, true, false, true,
            .valueKind codec w t0⟩ := by
      unfold Arg.done
      rfl
    apply parseAll_ok_of_stages
    · have hu : parseUtility p
          (u :: (p.longPrefix ++ (l ++ p.longSeparator :: V)) :: [])
          = ({ p with utilityName := u },
            (p.longPrefix ++ (l ++ p.longSeparator :: V)) :: []) := by
        simp [parseUtility, hutil]
      rw [hu]
      dsimp only
      unfold parseOptions
      have hTne : (p.longPrefix ++ (l ++ p.longSeparator :: V))
          ≠ ({ p with utilityName := u }).terminator := by
        show _ ≠ p.terminator
        rw [htm, hlp]
        simp
      have ht := parseTerminator_skip (p := { p with utilityName := u })
        (.inr (.inr hTne)) []
      have hpred : predictLongOption { p with utilityName := u }
          ((p.longPrefix ++ (l ++ p.longSeparator :: V)) :: []) = true := by
        simp [predictLongOption, hterm0, hlp]
      have hget : getOptionLong { p with utilityName := u } l
          = .ok (0, valueArg c l vn desc req codec t0) := by
        unfold getOptionLong
        rw [if_neg hl]
        show (match findOptionLong p.options l with
          | some ia => Except.ok ia
          | none => Except.error _) = _
        rw [hopt]
        have hfl : findOptionLong [valueArg c l vn desc req codec t0] l
            = some (0, valueArg c l vn desc req codec t0) :=
          findOptionLong_first [] _ _ (by simp) rfl
        rw [hfl]
      have hlong := @parseLongOption_value_merged
        { p with utilityName := u } l V [] _ _ _ _
        hpred hsepl hget rfl hparse hdone
      have hstep := parseOptionsGo_step_long 1 ht hlong (by simp)
      rw [show ((p.longPrefix ++ (l ++ p.longSeparator :: V)) :: []).length + 1
          = 1 + 1 from by simp]
      rw [hstep]
      rw [parseOptionsGo_nil]
      dsimp only
      rw [hopt]
      rfl
    · exact hops
    · show checkRequired _ [(⟨c, l, vn, desc, req, true, false, true,
          .valueKind codec w t0⟩ : Arg)] = .ok ()
      unfold checkRequired
      simp [checkRequired]
  · -- long form, next-token value
    have hparse : (valueArg c l vn desc req codec t0).parse V
        = .ok ⟨c, l, vn, desc, req, true, false, false,
            .valueKind codec w t0⟩ := by
      unfold Arg.parse valueArg
      dsimp only
      rw [hok]
    have hdone : (⟨c, l, vn, desc, req, true, false, false,
        .valueKind codec w t0⟩ : Arg).done
        = .ok ⟨c, l, vn, desc, req, true, false, true,
            .valueKind codec w t0⟩ := by
      unfold Arg.done
      rfl
    apply parseAll_ok_of_stages
    · have hu : parseUtility p (u :: (p.longPrefix ++ l) :: V :: [])
          = ({ p with utilityName := u }, (p.longPrefix ++ l) :: V :: []) := by
        simp [parseUtility, hutil]
      rw [hu]
      dsimp only
      unfold parseOptions
      have hTne : (p.longPrefix ++ l)
          ≠ ({ p with utilityName := u }).terminator := by
        show _ ≠ p.terminator
        rw [htm, hlp]
        intro he
        exact hl (by simpa using he)
      have ht := parseTerminator_skip (p := { p with utilityName := u })
        (.inr (.inr hTne)) (V :: [])
      have hlen : 0 < l.length := List.length_pos.mpr hl
      have hpred : predictLongOption { p with utilityName := u }
          ((p.longPrefix ++ l) :: V :: []) = true := by
        simp [predictLongOption, hterm0, hlp]
        omega
      have hget : getOptionLong { p with utilityName := u } l
          = .ok (0, valueArg c l vn desc req codec t0) := by
        unfold getOptionLong
        rw [if_neg hl]
        show (match findOptionLong p.options l with
          | some ia => Except.ok ia
          | none => Except.error _) = _
        rw [hopt]
        have hfl : findOptionLong [valueArg c l vn desc req codec t0] l
            = some (0, valueArg c l vn desc req codec t0) :=
          findOptionLong_first [] _ _ (by simp) rfl
        rw [hfl]
      have hlong := @parseLongOption_value_next
        { p with utilityName := u } l V [] _ _ _ _
        hpred hsepl hget rfl hparse hdone
      have hstep := parseOptionsGo_step_long 2 ht hlong (by simp)
      rw [show ((p.longPrefix ++ l) :: V :: []).length + 1 = 2 + 1 from by simp]
      rw [hstep]
      rw [parseOptionsGo_nil]
      dsimp only
      rw [hopt]
      rfl
    · exact hops
    · show checkRequired _ [(⟨c, l, vn, desc, req, true, false, true,
          .valueKind codec w t0⟩ : Arg)] = .ok ()
      unfold checkRequired
      simp [checkRequired]
  · -- short form, merged value
    intro hV
    have hparse : (valueArg c l vn desc req codec t0).parse V
        = .ok ⟨c, l, vn, desc, req, true, false, false,
            .valueKind codec w t0⟩ := by
      unfold Arg.parse valueArg
      dsimp only
      rw [hok]
    have hdone : (⟨c, l, vn, desc, req, true, false, false,
        .valueKind codec w t0⟩ : Arg).done
        = .ok ⟨c, l, vn, desc, req, true, false, true,
            .valueKind codec w t0⟩ := by
      unfold Arg.done
      rfl
    apply parseAll_ok_of_stages
    · have hu : parseUtility p (u :: (p.shortPrefix :: c :: V) :: [])
          = ({ p with utilityName := u }, (p.shortPrefix :: c :: V) :: []) := by
        simp [parseUtility, hutil]
      rw [hu]
      dsimp only
      unfold parseOptions
      have hTne : (p.shortPrefix :: c :: V)
          ≠ ({ p with utilityName := u }).terminator := by
        show _ ≠ p.terminator
        rw [htm]
        intro he
        have hh : p.shortPrefix = '-' ∧ c = '-' ∧ V = [] := by simpa using he
        exact hc1 hh.2.1
      have ht := parseTerminator_skip (p := { p with utilityName := u })
        (.inr (.inr hTne)) []
      have hpredL : predictLongOption { p with utilityName := u }
          ((p.shortPrefix :: c :: V) :: []) = false := by
        simp [predictLongOption, hlp, List.isPrefixOf]
        intro _ _ _
        exact fun he => hc1 he.symm
      have hlongskip : parseLongOption { p with utilityName := u }
          ((p.shortPrefix :: c :: V) :: [])
          = .ok ({ p with utilityName := u },
            (p.shortPrefix :: c :: V) :: []) := by
        simp [parseLongOption, hpredL]
      have hfind : findOptionShort ({ p with utilityName := u }).options c
          = some (0, valueArg c l vn desc req codec t0) := by
        show findOptionShort p.options c = _
        rw [hopt]
        exact findOptionShort_first [] _ _ (by simp) rfl
      have hshort := @parseShortOptions_single_merged
        { p with utilityName := u } c V [] _ _ _ _
        hterm0 hc2 hV hfind rfl hparse hdone
      have hstep := parseOptionsGo_step_short 1 ht hlongskip hshort
        (by simp)
      rw [show ((p.shortPrefix :: c :: V) :: []).length + 1 = 1 + 1 from by simp]
      rw [hstep]
      rw [parseOptionsGo_nil]
      dsimp only
      rw [hopt]
      rfl
    · exact hops
    · show checkRequired _ [(⟨c, l, vn, desc, req, true, false, true,
          .valueKind codec w t0⟩ : Arg)] = .ok ()
      unfold checkRequired
      simp [checkRequired]
  · -- short form, next-token value
    have hparse : (valueArg c l vn desc req codec t0).parse V
        = .ok ⟨c, l, vn, desc, req, true, false, false,
            .valueKind codec w t0⟩ := by
      unfold Arg.parse valueArg
      dsimp only
      rw [hok]
    have hdone : (⟨c, l, vn, desc, req, true, false, false,
        .valueKind codec w t0⟩ : Arg).done
        = .ok ⟨c, l, vn, desc, req, true, false, true,
            .valueKind codec w t0⟩ := by
      unfold Arg.done
      rfl
    apply parseAll_ok_of_stages
    · have hu : parseUtility p (u :: [p.shortPrefix, c] :: V :: [])
          = ({ p with utilityName := u }, [p.shortPrefix, c] :: V :: []) := by
        simp [parseUtility, hutil]
      rw [hu]
      dsimp only
      unfold parseOptions
      have hTne : ([p.shortPrefix, c] : List Char)
          ≠ ({ p with utilityName := u }).terminator := by
        show _ ≠ p.terminator
        rw [htm]
        intro he
        have hh : p.shortPrefix = '-' ∧ c = '-' := by simpa using he
        exact hc1 hh.2
      have ht := parseTerminator_skip (p := { p with utilityName := u })
        (.inr (.inr hTne)) (V :: [])
      have hpredL : predictLongOption { p with utilityName := u }
          ([p.shortPrefix, c] :: V :: []) = false := by
        simp [predictLongOption, hlp]
      have hlongskip : parseLongOption { p with utilityName := u }
          ([p.shortPrefix, c] :: V :: [])
          = .ok ({ p with utilityName := u }, [p.shortPrefix, c] :: V :: []) := by
        simp [parseLongOption, hpredL]
      have hfind : findOptionShort ({ p with utilityName := u }).options c
          = some (0, valueArg c l vn desc req codec t0) := by
        show findOptionShort p.options c = _
        rw [hopt]
        exact findOptionShort_first [] _ _ (by simp) rfl
      have hshort := @parseShortOptions_single_next
        { p with utilityName := u } c V [] _ _ _ _
        hterm0 hc2 hfind rfl hparse hdone
      have hstep := parseOptionsGo_step_short 2 ht hlongskip hshort
        (by simp)
      rw [show ([p.shortPrefix, c] :: V :: []).length + 1 = 2 + 1 from by simp]
      rw [hstep]
      rw [parseOptionsGo_nil]
      dsimp only
      rw [hopt]
      rfl
    · exact hops
    · show checkRequired _ [(⟨c, l, vn, desc, req, true, false, true,
          .valueKind codec w t0⟩ : Arg)] = .ok ()
      unfold checkRequired
      simp [checkRequired]

/-- C2 counterexample: for the empty value text, the long merged form
`--name=` binds the empty string, while the short merged form degenerates
to the bare `-n` token, fails with a missing-value error and leaves the
target at its prior value "d" - so the three forms do not agree for every
value text. -/
theorem C2_value_supply_forms_agree_counterexample :
    optionTarget (parseAll c2Parser
        (['p'] :: ['-', '-', 'n', 'a', 'm', 'e', '='] :: [])) 0
      = some (.vStr []) ∧
    resultExc (parseAll c2Parser (['p'] :: ['-', 'n'] :: []))
      = some (.err (msg "Cannot find value for option: " ['-', 'n'])) ∧
    optionTarget (parseAll c2Parser (['p'] :: ['-', 'n'] :: [])) 0
      = some (.vStr ['d']) :=
  ⟨by decide, by decide, by decide⟩

/-- Witness for C2: the four supply forms for value "A" on `c2Parser` all
succeed with the same final state binding "A". -/
theorem C2_value_supply_forms_agree_witness :
    parseAll c2Parser (['p'] :: ['-', '-', 'n', 'a', 'm', 'e', '=', 'A'] :: [])
      = parseAll c2Parser (['p'] :: ['-', '-', 'n', 'a', 'm', 'e'] :: ['A'] :: [])
    ∧ parseAll c2Parser (['p'] :: ['-', 'n', 'A'] :: [])
      = parseAll c2Parser (['p'] :: ['-', 'n'] :: ['A'] :: [])
    ∧ optionTarget (parseAll c2Parser
        (['p'] :: ['-', 'n', 'A'] :: [])) 0 = some (.vStr ['A']) := by
  have h := C2_value_supply_forms_agree c2Parser 'n' ['n', 'a', 'm', 'e']
    [] [] false strCodec (.vStr ['d']) ['A'] ['p'] (.vStr ['A'])
    rfl rfl rfl rfl rfl rfl (by decide) (by decide) (by decide) (by decide)
    rfl
  refine ⟨?_, ?_, ?_⟩
  · rw [show (['p'] :: ['-', '-', 'n', 'a', 'm', 'e', '=', 'A'] :: [])
        = (['p'] :: (c2Parser.longPrefix ++ (['n', 'a', 'm', 'e']
          ++ c2Parser.longSeparator :: ['A'])) :: []) from rfl]
    rw [show (['p'] :: ['-', '-', 'n', 'a', 'm', 'e'] :: ['A'] :: [])
        = (['p'] :: (c2Parser.longPrefix ++ ['n', 'a', 'm', 'e'])
          :: ['A'] :: []) from rfl]
    rw [h.1, h.2.1]
  · rw [show (['p'] :: ['-', 'n', 'A'] :: [])
        = (['p'] :: (c2Parser.shortPrefix :: 'n' :: ['A']) :: []) from rfl]
    rw [show (['p'] :: ['-', 'n'] :: ['A'] :: [])
        = (['p'] :: [c2Parser.shortPrefix, 'n'] :: ['A'] :: []) from rfl]
    rw [h.2.2.1 (by decide), h.2.2.2.1]
  · rw [show (['p'] :: ['-', 'n', 'A'] :: [])
        = (['p'] :: (c2Parser.shortPrefix :: 'n' :: ['A']) :: []) from rfl]
    rw [h.2.2.1 (by decide)]
    exact h.2.2.2.2

/-- Neither option form is predicted once the parser is terminated. -/
lemma predict_terminated {p : Parser} (h : p.isTerminated = true)
    (toks : List (List Char)) :
    predictLongOption p toks = false ∧ predictShortOption p toks = false := by
  cases toks with
  | nil => exact ⟨rfl, rfl⟩
  | cons t rest =>
    constructor
    · simp [predictLongOption, h]
    · simp [predictShortOption, h]

/-- A one-character token is never predicted as a long option. -/
lemma predictLong_singleton (p : Parser) (c : Char)
    (rest : List (List Char)) :
    predictLongOption p ([c] :: rest) = false := by
  cases hl : p.longPrefix with
  | nil => simp [predictLongOption, hl]
  | cons a as => simp [predictLongOption, hl]

/-- A one-character token is never predicted as a short option. -/
lemma predictShort_singleton (p : Parser) (c : Char)
    (rest : List (List Char)) :
    predictShortOption p ([c] :: rest) = false := by
  simp [predictShortOption]

lemma get?_set_self {α : Type} {l : List α} {i : Nat} {a : α}
    (h : i < l.length) : (l.set i a).get? i = some a := by
  induction l generalizing i with
  | nil => cases h
  | cons x xs ih =>
    cases i with
    | zero => rfl
    | succ j =>
      simp only [List.set_cons_succ, List.get?_cons_succ]
      exact ih (by simpa using h)

/-- `Arg.parse` leaves every field but the kind alone, and a sink stays a
sink with its elements appended. -/
lemma Arg.parse_sinkKind {a a' : Arg} {codec : Codec} {t : List Val}
    {s : List Char} (hk : a.kind = .sinkKind codec t)
    (h : a.parse s = .ok a') :
    ∃ v, codec.fromStr s = .ok v ∧
      a' = { a with kind := .sinkKind codec (t ++ [v]) } := by
  unfold Arg.parse at h
  rw [hk] at h
  dsimp only at h
  cases hc : codec.fromStr s with
  | error m => rw [hc] at h; cases h
  | ok v => rw [hc] at h; cases h; exact ⟨v, rfl, rfl⟩

/-- `Arg.done` on a non-signal argument only sets the done flag (and a
boolean target); it never changes `isSink` or a sink's kind. -/
lemma Arg.done_sinkKind {a : Arg} {codec : Codec} {t : List Val}
    (hk : a.kind = .sinkKind codec t) :
    a.done = .ok { a with isDone := true } := by
  unfold Arg.done
  rw [hk]

/-- While terminated, a sink operand consumes and binds every remaining
token - option-looking tokens and terminator-string tokens included - in
order, provided each converts. -/
lemma parseOperandContentGo_sink_drain :
    ∀ (toks : List (List Char)) (fuel : Nat) (p : Parser) (i : Nat)
      (op : Arg) (codec : Codec) (tgt : List Val) (vs : List Val),
      toks.length < fuel →
      p.isTerminated = true →
      p.operands.get? i = some op →
      op.kind = .sinkKind codec tgt → op.isSink = true →
      toks.mapM codec.fromStr = .ok vs →
      ∃ (p' : Parser) (op' : Arg),
        parseOperandContentGo fuel p toks i = .ok (p', []) ∧
        p'.operands.get? i = some op' ∧
        op'.kind = .sinkKind codec (tgt ++ vs) := by
  intro toks
  induction toks with
  | nil =>
    intro fuel p i op codec tgt vs hfuel hterm hget hkind hsink hmap
    cases fuel with
    | zero => omega
    | succ fuel =>
      refine ⟨p, op, ?_, hget, ?_⟩
      · rfl
      · cases hmap
        simpa using hkind
  | cons t rest ih =>
    intro fuel p i op codec tgt vs hfuel hterm hget hkind hsink hmap
    cases fuel with
    | zero => omega
    | succ fuel =>
      rw [List.mapM_cons] at hmap
      cases hv : codec.fromStr t with
      | error m => rw [hv] at hmap; cases hmap
      | ok v =>
        rw [hv] at hmap
        cases hvs : rest.mapM codec.fromStr with
        | error m => rw [hvs] at hmap; cases hmap
        | ok vs' =>
          rw [hvs] at hmap
          have hvseq : vs = v :: vs' := by
            cases hmap
            rfl
          subst hvseq
          have hilt : i < p.operands.length := by
            rcases List.get?_eq_some.mp hget with ⟨hlt, _⟩
            exact hlt
          have hparse : op.parse t
              = .ok { op with kind := .sinkKind codec (tgt ++ [v]) } := by
            unfold Arg.parse
            rw [hkind]
            dsimp only
            rw [hv]
          have hdone : ({ op with
              kind := ArgKind.sinkKind codec (tgt ++ [v]) } : Arg).done
              = .ok { op with
                  kind := ArgKind.sinkKind codec (tgt ++ [v]),
                  isDone := true } :=
            Arg.done_sinkKind rfl
          have hpred := predict_terminated hterm (t :: rest)
          have hstep : parseOperandContentGo (fuel + 1) p (t :: rest) i
              = parseOperandContentGo fuel { p with
                  operands := p.operands.set i { op with
                    kind := ArgKind.sinkKind codec (tgt ++ [v]),
                    isDone := true } } rest i := by
            conv_lhs => unfold parseOperandContentGo
            rw [parseTerminator_skip (.inl hterm) rest]
            dsimp only
            rw [hpred.1, hpred.2]
            simp only [Bool.or_self, Bool.false_eq_true, if_false]
            rw [hget]
            dsimp only
            rw [hparse]
            dsimp only
            rw [hdone]
            dsimp only
            rw [show ({ op with
                kind := ArgKind.sinkKind codec (tgt ++ [v]),
                isDone := true } : Arg).isSink = true from hsink]
            simp only [if_true]
          have hget2 : ({ p with
              operands := p.operands.set i { op with
                kind := ArgKind.sinkKind codec (tgt ++ [v]),
                isDone := true } }).operands.get? i
              = some { op with
                  kind := ArgKind.sinkKind codec (tgt ++ [v]),
                  isDone := true } :=
            get?_set_self (by simpa using hilt)
          obtain ⟨p', op', hrun, hget', hkind'⟩ := ih fuel
            { p with operands := p.operands.set i { op with
                kind := ArgKind.sinkKind codec (tgt ++ [v]),
                isDone := true } }
            i
            { op with
              kind := ArgKind.sinkKind codec (tgt ++ [v]),
              isDone := true }
            codec (tgt ++ [v]) vs' (by simp at hfuel ⊢; omega) hterm hget2
            rfl hsink hvs
          refine ⟨p', op', ?_, hget', ?_⟩
          · rw [hstep]
            exact hrun
          · rw [hkind']
            simp

/-- C3: the operands stage tries the terminator before each operand token
(part 1: the first terminator token flips the sticky state and is consumed,
never bound); while not terminated an option-looking token raises
"Unexpected option" instead of being bound (part 2); once terminated every
remaining token is bound into a sink operand, option-looking and
terminator-string tokens included (part 3); and a bare one-character
short-prefix token is bound as an ordinary operand value even before any
terminator (part 4). -/
theorem C3_operand_stage_behaviour :
    (∀ (fuel : Nat) (p : Parser) (rest : List (List Char)) (i : Nat),
        p.isTerminated = false → p.terminator ≠ [] →
        parseOperandContentGo (fuel + 1) p (p.terminator :: rest) i
          = parseOperandContentGo (fuel + 1) { p with isTerminated := true }
              rest i) ∧
    (∀ (p : Parser) (t : List Char) (rest : List (List Char)) (i : Nat),
        (p.isTerminated = true ∨ p.terminator = [] ∨ t ≠ p.terminator) →
        (predictLongOption p (t :: rest)
          || predictShortOption p (t :: rest)) = true →
        parseOperandContent p (t :: rest) i
          = .error (p, .err (msg "Unexpected option: " t))) ∧
    (∀ (p : Parser) (toks : List (List Char)) (i : Nat) (op : Arg)
        (codec : Codec) (tgt vs : List Val),
        p.isTerminated = true → p.operands.get? i = some op →
        op.kind = .sinkKind codec tgt → op.isSink = true →
        toks.mapM codec.fromStr = .ok vs →
        ∃ (p' : Parser) (op' : Arg),
          parseOperandContent p toks i = .ok (p', []) ∧
          p'.operands.get? i = some op' ∧
          op'.kind = .sinkKind codec (tgt ++ vs)) ∧
    (∀ (p : Parser) (rest : List (List Char)) (i : Nat) (op : Arg)
        (codec : Codec) (cur dflt v : Val),
        [p.shortPrefix] ≠ p.terminator →
        p.operands.get? i = some op →
        op.kind = .valueKind codec cur dflt → op.isSink = false →
        codec.fromStr [p.shortPrefix] = .ok v →
        parseOperandContent p ([p.shortPrefix] :: rest) i
          = .ok ({ p with operands := p.operands.set i { op with
              kind := .valueKind codec v dflt,
              isDone := true } }, rest)) := by
  refine ⟨?_, ?_, ?_, ?_⟩
  · intro fuel p rest i hterm0 htne
    conv_lhs => unfold parseOperandContentGo
    conv_rhs => unfold parseOperandContentGo
    rw [parseTerminator_match hterm0 htne rest]
    cases rest with
    | nil => rw [parseTerminator_nil]
    | cons t rest' => rw [parseTerminator_skip (.inl rfl) rest']
  · intro p t rest i hskip hpred
    unfold parseOperandContent
    conv_lhs => unfold parseOperandContentGo
    rw [parseTerminator_skip hskip rest]
    dsimp only
    rw [hpred]
    simp only [if_true]
  · intro p toks i op codec tgt vs hterm hget hkind hsink hmap
    exact parseOperandContentGo_sink_drain toks (toks.length + 1) p i op
      codec tgt vs (by omega) hterm hget hkind hsink hmap
  · intro p rest i op codec cur dflt v hne hget hkind hsink hv
    have hparse : op.parse [p.shortPrefix]
        = .ok { op with kind := .valueKind codec v dflt } := by
      unfold Arg.parse
      rw [hkind]
      dsimp only
      rw [hv]
    have hdone : ({ op with kind := ArgKind.valueKind codec v dflt }
        : Arg).done
        = .ok { op with
            kind := ArgKind.valueKind codec v dflt,
            isDone := true } := by
      unfold Arg.done
      rfl
    unfold parseOperandContent
    conv_lhs => unfold parseOperandContentGo
    rw [parseTerminator_skip (.inr (.inr hne)) rest]
    dsimp only
    rw [predictLong_singleton, predictShort_singleton]
    simp only [Bool.or_self, Bool.false_eq_true, if_false]
    rw [hget]
    dsimp only
    rw [hparse]
    dsimp only
    rw [hdone]
    dsimp only
    rw [show ({ op with
        kind := ArgKind.valueKind codec v dflt,
        isDone := true } : Arg).isSink = false from hsink]
    simp only [Bool.false_eq_true, if_false]

/-- Witness for C3: all four conjuncts at concrete inputs - the terminator
is consumed and flips the state; `-x` is rejected as an unexpected option;
after termination the sink swallows `--` and `-a`; and a bare `-` is bound
as an ordinary operand value. -/
theorem C3_operand_stage_behaviour_witness :
    parseOperandContentGo 2 c3OpParser [['-', '-']] 0
      = parseOperandContentGo 2 { c3OpParser with isTerminated := true } [] 0
    ∧ parseOperandContent c3OpParser [['-', 'x']] 0
      = .error (c3OpParser, .err (msg "Unexpected option: " ['-', 'x']))
    ∧ (∃ (p' : Parser) (op' : Arg),
        parseOperandContent c3TermParser [['-', '-'], ['-', 'a']] 0
          = .ok (p', []) ∧
        p'.operands.get? 0 = some op' ∧
        op'.kind = .sinkKind strCodec ([] ++ [.vStr ['-', '-'],
          .vStr ['-', 'a']]))
    ∧ parseOperandContent c3OpParser [['-']] 0
      = .ok ({ c3OpParser with
          operands := c3OpParser.operands.set 0
            ⟨noShort, [], [], [], false, true, false, true,
              .valueKind strCodec (.vStr ['-']) (.vStr ['d'])⟩ }, []) :=
  ⟨C3_operand_stage_behaviour.1 1 c3OpParser [] 0 rfl (by decide),
    C3_operand_stage_behaviour.2.1 c3OpParser ['-', 'x'] [] 0
      (.inr (.inr (by decide))) (by decide),
    C3_operand_stage_behaviour.2.2.1 c3TermParser [['-', '-'], ['-', 'a']]
      0 (sinkArg [] [] false strCodec []) strCodec []
      [.vStr ['-', '-'], .vStr ['-', 'a']] rfl rfl rfl rfl rfl,
    C3_operand_stage_behaviour.2.2.2 c3OpParser [] 0
      (valueArg noShort [] [] [] false strCodec (.vStr ['d'])) strCodec
      (.vStr ['d']) (.vStr ['d']) (.vStr ['-']) (by decide) rfl rfl rfl rfl⟩

/-- Case analysis for the terminator stage. -/
lemma parseTerminator_cases (p : Parser) (toks : List (List Char)) :
    parseTerminator p toks = (p, toks) ∨
    ∃ rest, toks = p.terminator :: rest ∧ p.isTerminated = false ∧
      parseTerminator p toks = ({ p with isTerminated := true }, rest) := by
  cases toks with
  | nil => exact .inl rfl
  | cons t rest =>
    by_cases hc : (p.isTerminated || decide (p.terminator = [])
        || decide (t ≠ p.terminator)) = true
    · left
      simp only [parseTerminator]
      rw [if_pos hc]
    · right
      simp only [Bool.or_eq_true, decide_eq_true_eq, not_or, ne_eq,
        not_not] at hc
      refine ⟨rest, by rw [hc.2], Bool.eq_false_iff.mpr hc.1.1, ?_⟩
      simp only [parseTerminator]
      rw [if_neg]
      simp [hc.1.1, hc.1.2, hc.2]

/-- The `parse` step of an argument never changes its `isSink` flag. -/
lemma Arg.parse_isSink {a a' : Arg} {s : List Char}
    (h : a.parse s = .ok a') : a'.isSink = a.isSink := by
  unfold Arg.parse at h
  repeat' split at h
  all_goals first
    | (cases h; rfl)
    | exact Except.noConfusion h

/-- The `done` step of an argument never changes its `isSink` flag. -/
lemma Arg.done_isSink {a a' : Arg} (h : a.done = .ok a') :
    a'.isSink = a.isSink := by
  unfold Arg.done at h
  repeat' split at h
  all_goals first
    | (cases h; rfl)
    | exact Except.noConfusion h

lemma get?_set_ne {α : Type} {l : List α} {i k : Nat} (h : i ≠ k) (a : α) :
    (l.set i a).get? k = l.get? k := by
  induction l generalizing i k with
  | nil => rfl
  | cons x xs ih =>
    cases i with
    | zero =>
      cases k with
      | zero => exact absurd rfl h
      | succ k2 => rfl
    | succ i2 =>
      cases k with
      | zero => rfl
      | succ k2 =>
        simp only [List.set_cons_succ, List.get?_cons_succ]
        exact ih (fun he => h (by rw [he]))

/-- A successful operand-content loop on a sink operand drains every token. -/
lemma parseOperandContentGo_sink_consumes_all :
    ∀ (fuel : Nat) (p : Parser) (toks : List (List Char)) (i : Nat)
      (p' : Parser) (t' : List (List Char)),
      toks.length < fuel →
      ((p.operands.get? i).map (fun a => a.isSink)) = some true →
      parseOperandContentGo fuel p toks i = .ok (p', t') →
      t' = [] := by
  intro fuel
  induction fuel with
  | zero =>
    intro p toks i p' t' hfuel
    omega
  | succ fuel ih =>
    intro p toks i p' t' hfuel hsink hrun
    unfold parseOperandContentGo at hrun
    rcases parseTerminator_cases p toks with hterm | ⟨rest0, htoks, hT, hterm⟩
    · rw [hterm] at hrun
      dsimp only at hrun
      cases toks with
      | nil =>
        cases hrun
        rfl
      | cons t rest =>
        dsimp only at hrun
        cases hp : (predictLongOption p (t :: rest)
            || predictShortOption p (t :: rest)) with
        | true =>
          rw [hp] at hrun
          simp only [if_true] at hrun
          exact Except.noConfusion hrun
        | false =>
          rw [hp] at hrun
          simp only [Bool.false_eq_true, if_false] at hrun
          rcases Option.map_eq_some'.mp hsink with ⟨op, hget, hs⟩
          rw [hget] at hrun
          dsimp only at hrun
          cases hpar : op.parse t with
          | error m =>
            rw [hpar] at hrun
            exact Except.noConfusion hrun
          | ok o₁ =>
            rw [hpar] at hrun
            dsimp only at hrun
            cases hdn : o₁.done with
            | error e =>
              rw [hdn] at hrun
              exact Except.noConfusion hrun
            | ok o₂ =>
              rw [hdn] at hrun
              dsimp only at hrun
              have hs2 : o₂.isSink = true :=
                (Arg.done_isSink hdn).trans ((Arg.parse_isSink hpar).trans hs)
              rw [hs2] at hrun
              simp only [if_true] at hrun
              have hilt : i < p.operands.length :=
                (List.get?_eq_some.mp hget).1
              refine ih _ rest i p' t'
                (by simp only [List.length_cons] at hfuel; omega) ?_ hrun
              rw [show ({ p with operands := p.operands.set i o₂ } : Parser).operands.get? i = some o₂ from get?_set_self (by simpa using hilt)]
              simp [hs2]
    · subst htoks
      rw [hterm] at hrun
      dsimp only at hrun
      cases rest0 with
      | nil =>
        cases hrun
        rfl
      | cons t rest =>
        dsimp only at hrun
        cases hp : (predictLongOption { p with isTerminated := true }
            (t :: rest) || predictShortOption { p with isTerminated := true }
            (t :: rest)) with
        | true =>
          rw [hp] at hrun
          simp only [if_true] at hrun
          exact Except.noConfusion hrun
        | false =>
          rw [hp] at hrun
          simp only [Bool.false_eq_true, if_false] at hrun
          rcases Option.map_eq_some'.mp hsink with ⟨op, hget, hs⟩
          have hget1 : ({ p with isTerminated := true }
              : Parser).operands.get? i = some op := hget
          rw [hget1] at hrun
          dsimp only at hrun
          cases hpar : op.parse t with
          | error m =>
            rw [hpar] at hrun
            exact Except.noConfusion hrun
          | ok o₁ =>
            rw [hpar] at hrun
            dsimp only at hrun
            cases hdn : o₁.done with
            | error e =>
              rw [hdn] at hrun
              exact Except.noConfusion hrun
            | ok o₂ =>
              rw [hdn] at hrun
              dsimp only at hrun
              have hs2 : o₂.isSink = true :=
                (Arg.done_isSink hdn).trans ((Arg.parse_isSink hpar).trans hs)
              rw [hs2] at hrun
              simp only [if_true] at hrun
              have hilt : i < p.operands.length :=
                (List.get?_eq_some.mp hget).1
              refine ih _ rest i p' t'
                (by simp only [List.length_cons] at hfuel; omega) ?_ hrun
              rw [show ({ p with isTerminated := true, operands := p.operands.set i o₂ } : Parser).operands.get? i = some o₂ from get?_set_self (by simpa using hilt)]
              simp [hs2]

lemma get?_set_map_isSink {l : List Arg} {i : Nat} {a b : Arg}
    (hget : l.get? i = some a) (hab : b.isSink = a.isSink) (k : Nat) :
    (((l.set i b).get? k).map (fun x => x.isSink))
      = ((l.get? k).map (fun x => x.isSink)) := by
  by_cases hik : i = k
  · subst hik
    rw [get?_set_self (by simpa using (List.get?_eq_some.mp hget).1), hget]
    simp [hab]
  · rw [get?_set_ne hik]

/-- The operand-content loop preserves the operand list length and the
`isSink` flag of every declared operand. -/
lemma parseOperandContentGo_operands_invariant :
    ∀ (fuel : Nat) (p : Parser) (toks : List (List Char)) (i : Nat)
      (p' : Parser) (t' : List (List Char)),
      parseOperandContentGo fuel p toks i = .ok (p', t') →
      p'.operands.length = p.operands.length ∧
      ∀ k, ((p'.operands.get? k).map (fun a => a.isSink))
        = ((p.operands.get? k).map (fun a => a.isSink)) := by
  intro fuel
  induction fuel with
  | zero =>
    intro p toks i p' t' hrun
    unfold parseOperandContentGo at hrun
    cases hrun
    exact ⟨rfl, fun k => rfl⟩
  | succ fuel ih =>
    intro p toks i p' t' hrun
    unfold parseOperandContentGo at hrun
    rcases parseTerminator_cases p toks with hterm | ⟨rest0, htoks, hT, hterm⟩
    · rw [hterm] at hrun
      dsimp only at hrun
      cases toks with
      | nil =>
        cases hrun
        exact ⟨rfl, fun k => rfl⟩
      | cons t rest =>
        dsimp only at hrun
        cases hp : (predictLongOption p (t :: rest)
            || predictShortOption p (t :: rest)) with
        | true =>
          rw [hp] at hrun
          simp only [if_true] at hrun
          exact Except.noConfusion hrun
        | false =>
          rw [hp] at hrun
          simp only [Bool.false_eq_true, if_false] at hrun
          cases hget : p.operands.get? i with
          | none =>
            rw [hget] at hrun
            cases hrun
            exact ⟨rfl, fun k => rfl⟩
          | some op =>
            rw [hget] at hrun
            dsimp only at hrun
            cases hpar : op.parse t with
            | error m =>
              rw [hpar] at hrun
              exact Except.noConfusion hrun
            | ok o₁ =>
              rw [hpar] at hrun
              dsimp only at hrun
              cases hdn : o₁.done with
              | error e =>
                rw [hdn] at hrun
                exact Except.noConfusion hrun
              | ok o₂ =>
                rw [hdn] at hrun
                dsimp only at hrun
                have hab : o₂.isSink = op.isSink :=
                  (Arg.done_isSink hdn).trans (Arg.parse_isSink hpar)
                cases hs2 : o₂.isSink with
                | true =>
                  rw [hs2] at hrun
                  simp only [if_true] at hrun
                  have hstep := ih _ rest i p' t' hrun
                  refine ⟨hstep.1.trans (by simp), fun k => ?_⟩
                  exact (hstep.2 k).trans (get?_set_map_isSink hget hab k)
                | false =>
                  rw [hs2] at hrun
                  simp only [Bool.false_eq_true, if_false] at hrun
                  cases hrun
                  exact ⟨by simp, fun k => get?_set_map_isSink hget hab k⟩
    · subst htoks
      rw [hterm] at hrun
      dsimp only at hrun
      cases rest0 with
      | nil =>
        cases hrun
        exact ⟨rfl, fun k => rfl⟩
      | cons t rest =>
        dsimp only at hrun
        cases hp : (predictLongOption { p with isTerminated := true }
            (t :: rest) || predictShortOption { p with isTerminated := true }
            (t :: rest)) with
        | true =>
          rw [hp] at hrun
          simp only [if_true] at hrun
          exact Except.noConfusion hrun
        | false =>
          rw [hp] at hrun
          simp only [Bool.false_eq_true, if_false] at hrun
          cases hget : p.operands.get? i with
          | none =>
            have hget1 : ({ p with isTerminated := true }
                : Parser).operands.get? i = none := hget
            rw [hget1] at hrun
            cases hrun
            exact ⟨rfl, fun k => rfl⟩
          | some op =>
            have hget1 : ({ p with isTerminated := true }
                : Parser).operands.get? i = some op := hget
            rw [hget1] at hrun
            dsimp only at hrun
            cases hpar : op.parse t with
            | error m =>
              rw [hpar] at hrun
              exact Except.noConfusion hrun
            | ok o₁ =>
              rw [hpar] at hrun
              dsimp only at hrun
              cases hdn : o₁.done with
              | error e =>
                rw [hdn] at hrun
                exact Except.noConfusion hrun
              | ok o₂ =>
                rw [hdn] at hrun
                dsimp only at hrun
                have hab : o₂.isSink = op.isSink :=
                  (Arg.done_isSink hdn).trans (Arg.parse_isSink hpar)
                cases hs2 : o₂.isSink with
                | true =>
                  rw [hs2] at hrun
                  simp only [if_true] at hrun
                  have hstep := ih _ rest i p' t' hrun
                  refine ⟨hstep.1.trans (by simp), fun k => ?_⟩
                  exact (hstep.2 k).trans (get?_set_map_isSink hget hab k)
                | false =>
                  rw [hs2] at hrun
                  simp only [Bool.false_eq_true, if_false] at hrun
                  cases hrun
                  exact ⟨by simp, fun k => get?_set_map_isSink hget hab k⟩

lemma parseUtility_operands {p p' : Parser} {toks t' : List (List Char)}
    (h : parseUtility p toks = (p', t')) : p'.operands = p.operands := by
  unfold parseUtility at h
  repeat' split at h
  all_goals (cases h; rfl)

lemma parseTerminator_operands {p p' : Parser} {toks t' : List (List Char)}
    (h : parseTerminator p toks = (p', t')) : p'.operands = p.operands := by
  unfold parseTerminator at h
  repeat' split at h
  all_goals (cases h; rfl)

lemma parseLongOption_operands {p p' : Parser} {toks t' : List (List Char)}
    (h : parseLongOption p toks = .ok (p', t')) :
    p'.operands = p.operands := by
  unfold parseLongOption at h
  dsimp only at h
  repeat' split at h
  all_goals first
    | (cases h; rfl)
    | exact Except.noConfusion h

lemma parseShortCluster_operands :
    ∀ (chars : List Char) (p : Parser) (rest : List (List Char))
      (token : List Char) (p' : Parser) (t' : List (List Char)),
      parseShortCluster p chars rest token = .ok (p', t') →
      p'.operands = p.operands := by
  intro chars
  induction chars with
  | nil =>
    intro p rest token p' t' h
    cases h
    rfl
  | cons c cs ih =>
    intro p rest token p' t' h
    unfold parseShortCluster at h
    repeat' split at h
    all_goals first
      | (cases h; rfl)
      | exact Except.noConfusion h
      | exact Eq.trans (ih _ _ _ _ _ h) rfl

lemma parseShortOptions_operands {p p' : Parser} {toks t' : List (List Char)}
    (h : parseShortOptions p toks = .ok (p', t')) :
    p'.operands = p.operands := by
  unfold parseShortOptions at h
  repeat' split at h
  all_goals first
    | (cases h; rfl)
    | exact Except.noConfusion h
    | exact parseShortCluster_operands _ _ _ _ _ _ h

lemma parseOptionsGo_operands :
    ∀ (fuel : Nat) (p : Parser) (toks : List (List Char)) (p' : Parser)
      (t' : List (List Char)),
      parseOptionsGo fuel p toks = .ok (p', t') →
      p'.operands = p.operands := by
  intro fuel
  induction fuel with
  | zero =>
    intro p toks p' t' h
    cases h
    rfl
  | succ fuel ih =>
    intro p toks p' t' h
    unfold parseOptionsGo at h
    rcases ht : parseTerminator p toks with ⟨p1, t1⟩
    rw [ht] at h
    dsimp only at h
    have h1 : p1.operands = p.operands := parseTerminator_operands ht
    by_cases hlt : t1.length < toks.length
    · rw [if_pos hlt] at h
      cases h
      exact h1
    · rw [if_neg hlt] at h
      cases hl : parseLongOption p1 t1 with
      | error e =>
        rw [hl] at h
        exact Except.noConfusion h
      | ok pt =>
        rcases pt with ⟨p2, t2⟩
        rw [hl] at h
        dsimp only at h
        have h2 : p2.operands = p.operands :=
          (parseLongOption_operands hl).trans h1
        by_cases hlt2 : t2.length < toks.length
        · rw [if_pos hlt2] at h
          exact (ih _ _ _ _ h).trans h2
        · rw [if_neg hlt2] at h
          cases hs : parseShortOptions p2 t2 with
          | error e =>
            rw [hs] at h
            exact Except.noConfusion h
          | ok pt2 =>
            rcases pt2 with ⟨p3, t3⟩
            rw [hs] at h
            dsimp only at h
            have h3 : p3.operands = p.operands :=
              (parseShortOptions_operands hs).trans h2
            by_cases hlt3 : t3.length < toks.length
            · rw [if_pos hlt3] at h
              exact (ih _ _ _ _ h).trans h3
            · rw [if_neg hlt3] at h
              cases h
              exact h3

/-- When the last declared operand is a sink, a successful operand stage
consumes every remaining token. -/
lemma parseOperandsGo_last_sink :
    ∀ (n : Nat) (p : Parser) (toks : List (List Char)) (i : Nat)
      (p' : Parser) (t' : List (List Char)),
      i + n = p.operands.length → 0 < n →
      ((p.operands.get? (p.operands.length - 1)).map (fun a => a.isSink))
        = some true →
      parseOperandsGo n p toks i = .ok (p', t') → t' = [] := by
  intro n
  induction n with
  | zero =>
    intro p toks i p' t' hlen h0
    omega
  | succ n ih =>
    intro p toks i p' t' hlen h0 hsink hrun
    unfold parseOperandsGo at hrun
    cases hc : parseOperandContent p toks i with
    | error e =>
      rw [hc] at hrun
      exact Except.noConfusion hrun
    | ok pt =>
      rcases pt with ⟨p1, t1⟩
      rw [hc] at hrun
      dsimp only at hrun
      cases n with
      | zero =>
        unfold parseOperandsGo at hrun
        cases hrun
        refine parseOperandContentGo_sink_consumes_all (toks.length + 1)
          p toks i p' t' (Nat.lt_succ_self _) ?_ hc
        rw [show i = p.operands.length - 1 by omega]
        exact hsink
      | succ m =>
        have hinv := parseOperandContentGo_operands_invariant _ p toks i _ _ hc
        refine ih p1 t1 (i + 1) p' t' (by rw [hinv.1]; omega) (by omega)
          ?_ hrun
        rw [hinv.1, hinv.2 (p.operands.length - 1)]
        exact hsink

/-- C10: for every parser whose last declared operand is a sink, the end
check of `parseAll` is unreachable: the whole parse coincides with the
variant that omits the `checkEnd` stage, so no token sequence can fail
with the end check's "Unexpected argument" error.  The sink's operand loop
consumes every remaining token whenever the operand stage succeeds. -/
theorem C10_sink_end_check_unreachable (p : Parser)
    (toks : List (List Char))
    (hsink : ((p.operands.get? (p.operands.length - 1)).map
      (fun a => a.isSink)) = some true) :
    parseAll p toks = parseAllNoEndCheck p toks := by
  unfold parseAll parseAllNoEndCheck
  rcases hu : parseUtility p toks with ⟨p1, t1⟩
  dsimp only
  cases ho : parseOptions p1 t1 with
  | error e => rfl
  | ok pt =>
    rcases pt with ⟨p2, t2⟩
    dsimp only
    cases hop : parseOperands p2 t2 with
    | error e => rfl
    | ok pt2 =>
      rcases pt2 with ⟨p3, t3⟩
      dsimp only
      have hops2 : p2.operands = p.operands :=
        (parseOptionsGo_operands _ _ _ _ _ ho).trans (parseUtility_operands hu)
      have hn : 0 < p2.operands.length := by
        rw [hops2]
        rcases Option.map_eq_some'.mp hsink with ⟨op, hget, _⟩
        have := (List.get?_eq_some.mp hget).1
        omega
      have ht3 : t3 = [] := by
        refine parseOperandsGo_last_sink p2.operands.length p2 t2 0 p3 t3
          (by omega) hn ?_ hop
        rw [hops2]
        exact hsink
      subst ht3
      rfl

/-- Witness for C10: a parser with a trailing sink operand, on a token
sequence with surplus tokens that the sink absorbs. -/
theorem C10_sink_end_check_unreachable_witness :
    ((c10Parser.operands.get? (c10Parser.operands.length - 1)).map
      (fun a => a.isSink)) = some true ∧
    parseAll c10Parser [['u'], ['a'], ['b'], ['c']]
      = parseAllNoEndCheck c10Parser [['u'], ['a'], ['b'], ['c']] :=
  ⟨rfl, C10_sink_end_check_unreachable c10Parser [['u'], ['a'], ['b'], ['c']]
    rfl⟩

end Minarg
